import Mathlib

/-!
A shallow embedding in Lean 4 of the sexagesimal-angle subsystem of the
`angles` Go package (the `Angle` type, the DMS converter `Ddd`/`DMS`, the
parser `ParseAngle` and its helpers, and the formatter `formatAngle`),
together with theorems settling the specification claims about it.

Modelling conventions:
* Go `float64` values are modelled as exact rationals (`ℚ`); floating-point
  rounding is out of scope, so "equal up to float rounding" becomes exact
  equality over `ℚ`.
* Go `int` is modelled as `ℤ` (overflow of 64-bit integers is not modelled).
* Go strings are Lean `String`s; byte-level indexing in the source only ever
  happens on ASCII data, where runes and bytes coincide.
* Fallible Go functions returning `(T, error)` become `Except ParseErr T`.
  Each distinct `fmt.Errorf` site in the source is one `ParseErr`
  constructor, carrying the data that the Go message interpolates.
-/

deriving instance DecidableEq for Except

namespace Angles

/-- Whitespace predicate: ASCII fragment of Go `unicode.IsSpace`, used by
`strings.TrimSpace` and `strings.Fields`.  (All whitespace relevant to the
parser is ASCII: the character-validation step only admits space and tab.) -/
def isGoSpace (c : Char) : Bool :=
  c = ' ' || c = '\t' || c = '\n' || c = '\x0b' || c = '\x0c' || c = '\r'

/-- Model of Go `strings.TrimSpace`: drop leading and trailing whitespace. -/
def trimSpace (s : String) : String :=
  ⟨((s.data.dropWhile isGoSpace).reverse.dropWhile isGoSpace).reverse⟩

/-- Accumulator-style worker for `strings.Fields`: `acc` holds the current
in-progress field, reversed. -/
def fieldsCore : List Char → List Char → List (List Char)
  | [], acc => if acc = [] then [] else [acc.reverse]
  | c :: cs, acc =>
    if isGoSpace c then
      if acc = [] then fieldsCore cs [] else acc.reverse :: fieldsCore cs []
    else
      fieldsCore cs (c :: acc)

/-- Model of Go `strings.Fields`: split around runs of whitespace. -/
def fields (s : String) : List String :=
  (fieldsCore s.data []).map fun l => ⟨l⟩

/-- Model of Go `strings.HasPrefix`. -/
def hasPre (s pre : String) : Bool :=
  pre.data.isPrefixOf s.data

/-- Model of Go `strings.ContainsRune` / single-character `strings.Contains`. -/
def containsRune (s : String) (c : Char) : Bool :=
  s.data.contains c

/-- Model of single-character `strings.Count`. -/
def countRune (s : String) (c : Char) : Nat :=
  s.data.count c

/-- Go `int(x)` conversion of a `float64`: truncation toward zero. -/
def ratTrunc (q : ℚ) : ℤ :=
  if q < 0 then -⌊-q⌋ else ⌊q⌋

-- Constants of the `angles` package.

def MaxMinutes : ℤ := 60
def MaxSeconds : ℚ := 60
def SecondsPerMinute : ℚ := 60
def MinutesPerDegree : ℚ := 60
def SecondsPerDegree : ℚ := 3600

/-- The allowed characters of `ValidParseChars`: the decimal digits, the
dot, the two signs, space, tab, and the upper- and lower-case letters. -/
def validParseChar (c : Char) : Bool :=
  c.isDigit || c = '.' || c = '-' || c = '+' || c = ' ' || c = '\t' ||
    ('a' ≤ c && c ≤ 'z') || ('A' ≤ c && c ≤ 'Z')

/-- The `AngleFormat` enumeration (`Dd`, `DMM`, `DMMm`, `DMMSS`, `DMMSSs`). -/
inductive AngleFormat
  | Dd
  | DMM
  | DMMm
  | DMMSS
  | DMMSSs
deriving DecidableEq, Repr

/-- The `Angle` struct: decimal-degree value `alpha` plus a format tag. -/
structure Angle where
  alpha : ℚ
  format : AngleFormat
deriving DecidableEq, Repr

/-- Definition: `Ddd` converts degrees, minutes, seconds to decimal degrees. -/
def Ddd (degrees minutes : ℤ) (seconds : ℚ) : ℚ :=
  let negative := degrees < 0 ∨ (degrees = 0 ∧ minutes < 0) ∨
    (degrees = 0 ∧ minutes = 0 ∧ seconds < 0)
  let result := |(degrees : ℚ)| + |(minutes : ℚ)| / MinutesPerDegree +
    |seconds| / SecondsPerDegree
  if negative then -result else result

/-- Result triple of `DMS` (the Go function writes through out-pointers). -/
structure DMSResult where
  degrees : ℤ
  minutes : ℤ
  seconds : ℚ
deriving DecidableEq, Repr

/-- Definition: `DMS` converts decimal degrees to degrees, minutes, seconds. -/
def DMS (decimalDegrees : ℚ) : DMSResult :=
  let negative := decimalDegrees < 0
  let dd := if negative then -decimalDegrees else decimalDegrees
  let degrees := ratTrunc dd
  let remainder := (dd - (degrees : ℚ)) * MinutesPerDegree
  let minutes := ratTrunc remainder
  let seconds := (remainder - (minutes : ℚ)) * SecondsPerMinute
  if negative then
    if degrees ≠ 0 then ⟨-degrees, minutes, seconds⟩
    else if minutes ≠ 0 then ⟨degrees, -minutes, seconds⟩
    else ⟨degrees, minutes, -seconds⟩
  else ⟨degrees, minutes, seconds⟩

/-- Definition: `DMSComponents`: DMS triple plus the negative-zero display flag. -/
structure DMSComponents where
  degrees : ℤ
  minutes : ℤ
  seconds : ℚ
  isNegativeZero : Bool
deriving DecidableEq, Repr

/-- Definition: `getDMSComponents` extracts DMS components and flags the negative-zero
case (`alpha < 0 && degrees == 0`). -/
def getDMSComponents (alpha : ℚ) : DMSComponents :=
  let r := DMS alpha
  ⟨r.degrees, r.minutes, r.seconds, decide (alpha < 0 ∧ r.degrees = 0)⟩

/-- Parse errors: one constructor per distinct `fmt.Errorf` site of the
parser, carrying the data interpolated into the Go message.  The `orig`
argument is the original input string echoed for diagnostics. -/
inductive ParseErr
  | emptyInput
  | whitespaceOnly
  | invalidCharacter (char : Char) (orig : String)
  | noValidComponents (orig : String)
  | emptyComponent (index : ℕ) (orig : String)
  | tooManyComponents (count : ℕ) (orig : String)
  | multipleSigns (component : String) (orig : String)
  | misplacedSign (component : String) (orig : String)
  | unexpectedDecimalPoint (component : String) (orig : String)
  | invalidIntValue (component : String) (orig : String)
  | multipleDecimalPoints (component : String) (orig : String)
  | invalidFloatValue (component : String) (orig : String)
  | nonFiniteValue (component : String) (orig : String)
  | outOfRangeMinutesInt (got : ℤ) (orig : String)
  | outOfRangeMinutesFloat (got : ℚ) (orig : String)
  | outOfRangeSecondsInt (got : ℤ) (orig : String)
  | outOfRangeSecondsFloat (got : ℚ) (orig : String)
deriving DecidableEq, Repr

/-- Decimal digits to a natural number, most significant first. -/
def digitsToNat (l : List Char) : ℕ :=
  l.foldl (fun acc c => 10 * acc + (c.toNat - 48)) 0

/-- Model of Go `strconv.Atoi`: an optional sign followed by at least one
decimal digit.  (64-bit overflow is not modelled.) -/
def goAtoi (s : String) : Option ℤ :=
  match s.data with
  | [] => none
  | c :: cs =>
    let neg := c = '-'
    let ds := if c = '-' ∨ c = '+' then cs else c :: cs
    if ds ≠ [] ∧ ds.all (·.isDigit) then
      some (if neg then -(digitsToNat ds : ℤ) else (digitsToNat ds : ℤ))
    else
      none

/-- A `float64` produced by `strconv.ParseFloat`: either a finite value
(modelled exactly as a rational) or a non-finite one (infinity or NaN). -/
inductive GoFloat
  | finite (q : ℚ)
  | nonfinite
deriving DecidableEq, Repr

/-- Hexadecimal digit test (for Go hexadecimal float literals). -/
def isHexDigit (c : Char) : Bool :=
  c.isDigit || ('a' ≤ c && c ≤ 'f') || ('A' ≤ c && c ≤ 'F')

/-- Hexadecimal digits to a natural number, most significant first. -/
def hexDigitsToNat (l : List Char) : ℕ :=
  l.foldl (fun acc c =>
    16 * acc + (if c.isDigit then c.toNat - 48
      else if 'a' ≤ c && c ≤ 'f' then c.toNat - 87 else c.toNat - 55)) 0

/-- Parse the optional decimal exponent suffix (`e`/`E`, optional sign,
digits) of a float literal; returns the exponent, or `none` if the suffix
is malformed or the tail is nonempty. -/
def parseDecExponent (l : List Char) : Option ℤ :=
  match l with
  | [] => some 0
  | e :: rest =>
    if e = 'e' ∨ e = 'E' then
      match rest with
      | [] => none
      | c :: cs =>
        let neg := c = '-'
        let ds := if c = '-' ∨ c = '+' then cs else c :: cs
        if ds ≠ [] ∧ ds.all (·.isDigit) then
          some (if neg then -(digitsToNat ds : ℤ) else (digitsToNat ds : ℤ))
        else none
    else none

/-- Parse the mandatory binary exponent suffix (`p`/`P`, optional sign,
decimal digits) of a Go hexadecimal float literal. -/
def parseBinExponent (l : List Char) : Option ℤ :=
  match l with
  | p :: rest =>
    if p = 'p' ∨ p = 'P' then
      match rest with
      | [] => none
      | c :: cs =>
        let neg := c = '-'
        let ds := if c = '-' ∨ c = '+' then cs else c :: cs
        if ds ≠ [] ∧ ds.all (·.isDigit) then
          some (if neg then -(digitsToNat ds : ℤ) else (digitsToNat ds : ℤ))
        else none
    else none
  | [] => none

/-- The unsigned mantissa of a decimal float literal: digits with at most
one dot, followed by an optional exponent.  Returns the exact value. -/
def parseDecMantissa (l : List Char) : Option ℚ :=
  let intDigits := l.takeWhile (·.isDigit)
  let rest := l.drop intDigits.length
  match rest with
  | '.' :: rest2 =>
    let fracDigits := rest2.takeWhile (·.isDigit)
    let rest3 := rest2.drop fracDigits.length
    if intDigits = [] ∧ fracDigits = [] then none
    else match parseDecExponent rest3 with
      | none => none
      | some exp =>
        some ((digitsToNat (intDigits ++ fracDigits) : ℚ) /
          (10 : ℚ) ^ fracDigits.length * (10 : ℚ) ^ exp)
  | _ =>
    if intDigits = [] then none
    else match parseDecExponent rest with
      | none => none
      | some exp => some ((digitsToNat intDigits : ℚ) * (10 : ℚ) ^ exp)

/-- The unsigned mantissa of a Go hexadecimal float literal (`0x…p…`). -/
def parseHexMantissa (l : List Char) : Option ℚ :=
  let intDigits := l.takeWhile isHexDigit
  let rest := l.drop intDigits.length
  match rest with
  | '.' :: rest2 =>
    let fracDigits := rest2.takeWhile isHexDigit
    let rest3 := rest2.drop fracDigits.length
    if intDigits = [] ∧ fracDigits = [] then none
    else match parseBinExponent rest3 with
      | none => none
      | some exp =>
        some ((hexDigitsToNat (intDigits ++ fracDigits) : ℚ) /
          (16 : ℚ) ^ fracDigits.length * (2 : ℚ) ^ exp)
  | _ =>
    if intDigits = [] then none
    else match parseBinExponent rest with
      | none => none
      | some exp => some ((hexDigitsToNat intDigits : ℚ) * (2 : ℚ) ^ exp)

/-- Model of Go `strconv.ParseFloat(s, 64)`: an optional sign followed by
either a named non-finite value (`inf`, `infinity`, `nan`, case-insensitive),
a decimal literal with optional `e` exponent, or a hexadecimal literal with
mandatory `p` exponent.  Finite values are modelled exactly as rationals
(binary rounding and overflow to infinity are not modelled). -/
def goParseFloat (s : String) : Option GoFloat :=
  match s.data with
  | [] => none
  | c :: cs =>
    let neg := c = '-'
    let body := if c = '-' ∨ c = '+' then cs else c :: cs
    let lower := body.map Char.toLower
    if lower = "inf".data ∨ lower = "infinity".data ∨ lower = "nan".data then
      some .nonfinite
    else
      let mantissa :=
        match lower with
        | '0' :: 'x' :: _ => parseHexMantissa (body.drop 2)
        | _ => parseDecMantissa body
      match mantissa with
      | none => none
      | some q => some (.finite (if neg then -q else q))

/-- Definition: `validateNumericString`: at most one sign character, and only in the
first position. -/
def validateNumericString (str componentName originalInput : String) :
    Except ParseErr Unit :=
  let signCount := countRune str '+' + countRune str '-'
  if 1 < signCount then
    .error (.multipleSigns componentName originalInput)
  else if 1 < str.data.length ∧
      (containsRune ⟨str.data.drop 1⟩ '+' ∨ containsRune ⟨str.data.drop 1⟩ '-') then
    .error (.misplacedSign componentName originalInput)
  else
    .ok ()

/-- Definition: `parseIntegerComponent`: sign validation, then rejection of any decimal
point, then `strconv.Atoi`. -/
def parseIntegerComponent (str componentName originalInput : String) :
    Except ParseErr ℤ :=
  match validateNumericString str componentName originalInput with
  | .error e => .error e
  | .ok _ =>
    if containsRune str '.' then
      .error (.unexpectedDecimalPoint componentName originalInput)
    else
      match goAtoi str with
      | none => .error (.invalidIntValue componentName originalInput)
      | some v => .ok v

/-- Definition: `parseFloatComponent`: sign validation, rejection of multiple decimal
points, `strconv.ParseFloat`, then rejection of non-finite values. -/
def parseFloatComponent (str componentName originalInput : String) :
    Except ParseErr ℚ :=
  match validateNumericString str componentName originalInput with
  | .error e => .error e
  | .ok _ =>
    if 1 < countRune str '.' then
      .error (.multipleDecimalPoints componentName originalInput)
    else
      match goParseFloat str with
      | none => .error (.invalidFloatValue componentName originalInput)
      | some .nonfinite => .error (.nonFiniteValue componentName originalInput)
      | some (.finite q) => .ok q

/-- Definition: `validateMinutesInt`: `|minutes| < 60`, strictly. -/
def validateMinutesInt (minutes : ℤ) (originalInput : String) :
    Except ParseErr Unit :=
  if MaxMinutes ≤ (minutes.natAbs : ℤ) then
    .error (.outOfRangeMinutesInt minutes originalInput)
  else
    .ok ()

/-- Definition: `validateMinutesFloat`: `|minutes| < 60`, strictly. -/
def validateMinutesFloat (minutes : ℚ) (originalInput : String) :
    Except ParseErr Unit :=
  if (MaxMinutes : ℚ) ≤ |minutes| then
    .error (.outOfRangeMinutesFloat minutes originalInput)
  else
    .ok ()

/-- Definition: `validateSecondsInt`: `|seconds| < 60`, strictly. -/
def validateSecondsInt (seconds : ℤ) (originalInput : String) :
    Except ParseErr Unit :=
  if ratTrunc MaxSeconds ≤ (seconds.natAbs : ℤ) then
    .error (.outOfRangeSecondsInt seconds originalInput)
  else
    .ok ()

/-- Definition: `validateSecondsFloat`: `|seconds| < 60`, strictly. -/
def validateSecondsFloat (seconds : ℚ) (originalInput : String) :
    Except ParseErr Unit :=
  if MaxSeconds ≤ |seconds| then
    .error (.outOfRangeSecondsFloat seconds originalInput)
  else
    .ok ()

/-- Definition: `parseDdFormat` handles the single-component decimal-degrees format. -/
def parseDdFormat (degreeStr originalInput : String) : Except ParseErr Angle :=
  match parseFloatComponent degreeStr "decimal degrees" originalInput with
  | .error e => .error e
  | .ok value => .ok ⟨value, .Dd⟩

/-- Definition: `parseDMMFormat` handles the two-component (degrees, minutes) formats. -/
def parseDMMFormat (degreeStr minuteStr originalInput : String) :
    Except ParseErr Angle :=
  match parseIntegerComponent degreeStr "degrees" originalInput with
  | .error e => .error e
  | .ok degrees =>
    if containsRune minuteStr '.' then
      match parseFloatComponent minuteStr "minutes" originalInput with
      | .error e => .error e
      | .ok minutes =>
        match validateMinutesFloat minutes originalInput with
        | .error e => .error e
        | .ok _ =>
          .ok ⟨Ddd degrees (ratTrunc minutes)
                ((minutes - (ratTrunc minutes : ℚ)) * SecondsPerMinute), .DMMm⟩
    else
      match parseIntegerComponent minuteStr "minutes" originalInput with
      | .error e => .error e
      | .ok minutes =>
        match validateMinutesInt minutes originalInput with
        | .error e => .error e
        | .ok _ => .ok ⟨Ddd degrees minutes 0, .DMM⟩

/-- Definition: `parseDMMSSFormat` handles the three-component (degrees, minutes,
seconds) formats, including the `-0` degrees special case. -/
def parseDMMSSFormat (degreeStr minuteStr secondStr originalInput : String) :
    Except ParseErr Angle :=
  match parseIntegerComponent degreeStr "degrees" originalInput with
  | .error e => .error e
  | .ok degrees =>
    match parseIntegerComponent minuteStr "minutes" originalInput with
    | .error e => .error e
    | .ok minutes =>
      match validateMinutesInt minutes originalInput with
      | .error e => .error e
      | .ok _ =>
        let isNegativeZero := hasPre degreeStr "-" ∧ degrees = 0
        if containsRune secondStr '.' then
          match parseFloatComponent secondStr "seconds" originalInput with
          | .error e => .error e
          | .ok seconds =>
            match validateSecondsFloat seconds originalInput with
            | .error e => .error e
            | .ok _ =>
              let decimalDegrees := Ddd degrees minutes seconds
              .ok ⟨if isNegativeZero then -decimalDegrees else decimalDegrees,
                .DMMSSs⟩
        else
          match parseIntegerComponent secondStr "seconds" originalInput with
          | .error e => .error e
          | .ok seconds =>
            match validateSecondsInt seconds originalInput with
            | .error e => .error e
            | .ok _ =>
              let decimalDegrees := Ddd degrees minutes (seconds : ℚ)
              .ok ⟨if isNegativeZero then -decimalDegrees else decimalDegrees,
                .DMMSS⟩

/-- Definition: `ParseAngle` parses a free-form string into an `Angle`. -/
def ParseAngle (input : String) : Except ParseErr Angle :=
  if input = "" then .error .emptyInput
  else
    let originalInput := input
    let trimmed := trimSpace input
    if trimmed = "" then .error .whitespaceOnly
    else
      match trimmed.data.find? (fun c => !validParseChar c) with
      | some char => .error (.invalidCharacter char originalInput)
      | none =>
        let parts := fields trimmed
        if parts.length = 0 then .error (.noValidComponents originalInput)
        else
          match parts.findIdx? (· = "") with
          | some i => .error (.emptyComponent (i + 1) originalInput)
          | none =>
            match parts with
            | [p0] => parseDdFormat p0 originalInput
            | [p0, p1] => parseDMMFormat p0 p1 originalInput
            | [p0, p1, p2] => parseDMMSSFormat p0 p1 p2 originalInput
            | _ => .error (.tooManyComponents parts.length originalInput)

/-- Decimal digits of a natural number (worker with fuel; the fuel `n + 1`
always suffices since `n / 10 < n` for `n ≥ 10`). -/
def natStrCore : ℕ → ℕ → List Char → List Char
  | 0, _, acc => acc
  | fuel + 1, n, acc =>
    if n < 10 then Nat.digitChar n :: acc
    else natStrCore fuel (n / 10) (Nat.digitChar (n % 10) :: acc)

/-- Decimal rendering of a natural number. -/
def natStr (n : ℕ) : String := ⟨natStrCore (n + 1) n []⟩

/-- Model of `fmt` verb `%d` on an integer. -/
def intStr (i : ℤ) : String :=
  if i < 0 then "-" ++ natStr i.natAbs else natStr i.natAbs

/-- Left-pad a digit string with zeros to width `w`. -/
def zeroPad (w : ℕ) (s : List Char) : List Char :=
  List.replicate (w - s.length) '0' ++ s

/-- Model of `fmt` verb `%0wd`: zero-padded decimal, sign before the
padding. -/
def intStr0Pad (w : ℕ) (i : ℤ) : String :=
  if i < 0 then "-" ++ ⟨zeroPad (w - 1) (natStr i.natAbs).data⟩
  else ⟨zeroPad w (natStr i.natAbs).data⟩

/-- Round to the nearest integer, ties to even — the rounding `strconv`
applies when formatting a float with a fixed number of fraction digits. -/
def roundHalfEven (q : ℚ) : ℤ :=
  let f := ⌊q⌋
  let r := q - (f : ℚ)
  if r < 1/2 then f
  else if 1/2 < r then f + 1
  else if f % 2 = 0 then f else f + 1

/-- Model of `fmt` verb `%.*f` on a float (modelled exactly on `ℚ`):
a negative star-precision is treated by Go's `fmt` as an absent precision,
and the default precision of `%f` is 6. -/
def goFmtF (prec : ℤ) (q : ℚ) : String :=
  let p := (if prec < 0 then (6 : ℤ) else prec).toNat
  let sign := if q < 0 then "-" else ""
  let n := (roundHalfEven (|q| * (10 : ℚ) ^ p)).toNat
  let ip := n / 10 ^ p
  let fp := n % 10 ^ p
  if p = 0 then sign ++ natStr ip
  else sign ++ natStr ip ++ "." ++ ⟨zeroPad p (natStr fp).data⟩

/-- Model of `fmt.Sprintf("%-*s", w, s)` for `w > 0`: left-justify by
right-padding with spaces to at least `w` characters, never truncating. -/
def goPadRight (w : ℤ) (s : String) : String :=
  s ++ ⟨List.replicate (w.toNat - s.data.length) ' '⟩

/-- The per-format assembly step of `formatAngle` (everything before the
width step).  The Go `switch` has a `default` arm for out-of-enumeration
`AngleFormat` integer values; the Lean `AngleFormat` is a closed inductive
type, so that arm is unrepresentable here. -/
def formatAngleCore (alpha : ℚ) (format : AngleFormat) (precision : ℤ)
    (useSymbols : Bool) : String :=
  let c := getDMSComponents alpha
  match format with
  | .Dd =>
    if useSymbols then goFmtF 5 alpha ++ "°" else goFmtF precision alpha
  | .DMM =>
    if useSymbols then
      if c.isNegativeZero then
        intStr c.degrees ++ "°" ++ intStr0Pad 2 c.minutes ++ "\x27"
      else
        intStr c.degrees ++ "°" ++ intStr0Pad 2 (c.minutes.natAbs : ℤ) ++ "\x27"
    else
      if c.isNegativeZero then
        intStr c.degrees ++ " " ++ intStr c.minutes
      else
        intStr c.degrees ++ " " ++ intStr (c.minutes.natAbs : ℤ)
  | .DMMm =>
    let minutesDecimal0 := (c.minutes.natAbs : ℚ) + |c.seconds| / SecondsPerMinute
    let minutesDecimal := if c.isNegativeZero then -minutesDecimal0 else minutesDecimal0
    if useSymbols then
      intStr c.degrees ++ "°" ++ goFmtF 3 minutesDecimal ++ "\x27"
    else
      intStr c.degrees ++ " " ++ goFmtF precision minutesDecimal
  | .DMMSS =>
    if useSymbols then
      if c.isNegativeZero then
        intStr c.degrees ++ "°" ++ intStr0Pad 2 c.minutes ++ "\x27" ++
          intStr0Pad 2 (ratTrunc c.seconds) ++ "\x22"
      else
        intStr c.degrees ++ "°" ++ intStr0Pad 2 (c.minutes.natAbs : ℤ) ++ "\x27" ++
          intStr0Pad 2 (ratTrunc |c.seconds|) ++ "\x22"
    else
      if c.isNegativeZero then
        intStr c.degrees ++ " " ++ intStr c.minutes ++ " " ++
          intStr (ratTrunc c.seconds)
      else
        intStr c.degrees ++ " " ++ intStr (c.minutes.natAbs : ℤ) ++ " " ++
          intStr (ratTrunc |c.seconds|)
  | .DMMSSs =>
    if useSymbols then
      if c.isNegativeZero then
        intStr c.degrees ++ "°" ++ intStr0Pad 2 c.minutes ++ "\x27" ++
          goFmtF 3 c.seconds ++ "\x22"
      else
        intStr c.degrees ++ "°" ++ intStr0Pad 2 (c.minutes.natAbs : ℤ) ++ "\x27" ++
          goFmtF 3 |c.seconds| ++ "\x22"
    else
      if c.isNegativeZero then
        intStr c.degrees ++ " " ++ intStr c.minutes ++ " " ++
          goFmtF precision c.seconds
      else
        intStr c.degrees ++ " " ++ intStr (c.minutes.natAbs : ℤ) ++ " " ++
          goFmtF precision |c.seconds|

/-- Definition: `formatAngle`: per-format assembly, then left-justified width padding. -/
def formatAngle (alpha : ℚ) (format : AngleFormat) (precision width : ℤ)
    (useSymbols : Bool) : String :=
  let result := formatAngleCore alpha format precision useSymbols
  if 0 < width then goPadRight width result else result

/-! ## Helper lemmas about the DMS converter -/

lemma ratTrunc_eq_floor {q : ℚ} (h : 0 ≤ q) : ratTrunc q = ⌊q⌋ := by
  unfold ratTrunc
  rw [if_neg (not_lt.mpr h)]

/-- Lemma: `DMS` unfolded into floor arithmetic on `|v|`. -/
lemma DMS_eq (v : ℚ) :
    DMS v =
      if v < 0 then
        (if ⌊|v|⌋ ≠ 0 then
          ⟨-⌊|v|⌋, ⌊(|v| - (⌊|v|⌋ : ℚ)) * 60⌋,
            ((|v| - (⌊|v|⌋ : ℚ)) * 60 - (⌊(|v| - (⌊|v|⌋ : ℚ)) * 60⌋ : ℚ)) * 60⟩
        else if ⌊(|v| - (⌊|v|⌋ : ℚ)) * 60⌋ ≠ 0 then
          ⟨⌊|v|⌋, -⌊(|v| - (⌊|v|⌋ : ℚ)) * 60⌋,
            ((|v| - (⌊|v|⌋ : ℚ)) * 60 - (⌊(|v| - (⌊|v|⌋ : ℚ)) * 60⌋ : ℚ)) * 60⟩
        else
          ⟨⌊|v|⌋, ⌊(|v| - (⌊|v|⌋ : ℚ)) * 60⌋,
            -(((|v| - (⌊|v|⌋ : ℚ)) * 60 - (⌊(|v| - (⌊|v|⌋ : ℚ)) * 60⌋ : ℚ)) * 60)⟩)
      else
        ⟨⌊|v|⌋, ⌊(|v| - (⌊|v|⌋ : ℚ)) * 60⌋,
          ((|v| - (⌊|v|⌋ : ℚ)) * 60 - (⌊(|v| - (⌊|v|⌋ : ℚ)) * 60⌋ : ℚ)) * 60⟩ := by
  have habs : 0 ≤ |v| := abs_nonneg v
  have hrem : (0 : ℚ) ≤ (|v| - (⌊|v|⌋ : ℚ)) * 60 := by
    have := Int.fract_nonneg (|v|)
    unfold Int.fract at this
    nlinarith
  unfold DMS
  by_cases hv : v < 0
  · rw [if_pos hv, if_pos hv]
    rw [abs_of_neg hv] at habs hrem ⊢
    simp only [MinutesPerDegree, SecondsPerMinute,
      ratTrunc_eq_floor habs, ratTrunc_eq_floor hrem]
    rw [if_pos hv]
  · rw [if_neg hv, if_neg hv]
    rw [abs_of_nonneg (not_lt.mp hv)] at habs hrem ⊢
    simp only [MinutesPerDegree, SecondsPerMinute,
      ratTrunc_eq_floor habs, ratTrunc_eq_floor hrem]
    rw [if_neg hv]

lemma dms_minutes_nonneg (a : ℚ) :
    0 ≤ ⌊(a - (⌊a⌋ : ℚ)) * 60⌋ := by
  apply Int.floor_nonneg.mpr
  have := Int.fract_nonneg a
  unfold Int.fract at this
  nlinarith

lemma dms_seconds_nonneg (a : ℚ) :
    0 ≤ ((a - (⌊a⌋ : ℚ)) * 60 - (⌊(a - (⌊a⌋ : ℚ)) * 60⌋ : ℚ)) * 60 := by
  have := Int.fract_nonneg ((a - (⌊a⌋ : ℚ)) * 60)
  unfold Int.fract at this
  nlinarith

/-- The reconstruction identity: degrees + minutes/60 + seconds/3600
telescopes back to the decomposed value. -/
lemma dms_reconstruction (a : ℚ) :
    (⌊a⌋ : ℚ) + (⌊(a - (⌊a⌋ : ℚ)) * 60⌋ : ℚ) / 60 +
      ((a - (⌊a⌋ : ℚ)) * 60 - (⌊(a - (⌊a⌋ : ℚ)) * 60⌋ : ℚ)) * 60 / 3600 = a := by
  generalize (⌊a⌋ : ℚ) = D
  generalize (⌊(a - D) * 60⌋ : ℚ) = M
  ring

/-- Lemma: `Ddd` unfolded: sign flag and magnitude. -/
lemma Ddd_eval (d m : ℤ) (s : ℚ) :
    Ddd d m s =
      if d < 0 ∨ (d = 0 ∧ m < 0) ∨ (d = 0 ∧ m = 0 ∧ s < 0) then
        -(|(d : ℚ)| + |(m : ℚ)| / 60 + |s| / 3600)
      else |(d : ℚ)| + |(m : ℚ)| / 60 + |s| / 3600 := rfl

/-- Lemma: `Ddd ∘ DMS` is the identity, exactly, over `ℚ`. -/
lemma Ddd_DMS_exact (v : ℚ) :
    Ddd (DMS v).degrees (DMS v).minutes (DMS v).seconds = v := by
  rw [DMS_eq v]
  have habs : 0 ≤ |v| := abs_nonneg v
  set a := |v| with ha
  set d : ℤ := ⌊a⌋ with hd_def
  set r : ℚ := (a - (d : ℚ)) * 60 with hr_def
  set m : ℤ := ⌊r⌋ with hm_def
  set S : ℚ := (r - (m : ℚ)) * 60 with hS_def
  have hd0 : 0 ≤ d := Int.floor_nonneg.mpr habs
  have hr0 : 0 ≤ r := by
    rw [hr_def, hd_def]
    have := Int.fract_nonneg a
    unfold Int.fract at this
    nlinarith
  have hm0 : 0 ≤ m := by rw [hm_def]; exact Int.floor_nonneg.mpr hr0
  have hS0 : 0 ≤ S := by
    rw [hS_def, hm_def]
    have := Int.fract_nonneg r
    unfold Int.fract at this
    nlinarith
  have hrecon : (d : ℚ) + (m : ℚ) / 60 + S / 3600 = a := by
    rw [hS_def, hr_def]
    ring
  by_cases hv : v < 0
  · rw [if_pos hv]
    have hva : v = -a := by rw [ha, abs_of_neg hv, neg_neg]
    by_cases hdz : d ≠ 0
    · rw [if_pos hdz]
      show Ddd (-d) m S = v
      have hflag : (-d < 0 ∨ (-d = 0 ∧ m < 0) ∨ (-d = 0 ∧ m = 0 ∧ S < 0)) :=
        Or.inl (by omega)
      rw [Ddd_eval, if_pos hflag]
      have h1 : |((-d : ℤ) : ℚ)| = (d : ℚ) := by
        push_cast
        rw [abs_neg, abs_of_nonneg (by exact_mod_cast hd0)]
      have h2 : |(m : ℚ)| = (m : ℚ) := abs_of_nonneg (by exact_mod_cast hm0)
      have h3 : |S| = S := abs_of_nonneg hS0
      rw [h1, h2, h3, hva]
      linarith
    · rw [if_neg hdz]
      push_neg at hdz
      by_cases hmz : m ≠ 0
      · rw [if_pos hmz]
        show Ddd d (-m) S = v
        have hflag : (d < 0 ∨ (d = 0 ∧ -m < 0) ∨ (d = 0 ∧ -m = 0 ∧ S < 0)) :=
          Or.inr (Or.inl ⟨hdz, by omega⟩)
        rw [Ddd_eval, if_pos hflag]
        have h1 : |(d : ℚ)| = (d : ℚ) := abs_of_nonneg (by exact_mod_cast hd0)
        have h2 : |((-m : ℤ) : ℚ)| = (m : ℚ) := by
          push_cast
          rw [abs_neg, abs_of_nonneg (by exact_mod_cast hm0)]
        have h3 : |S| = S := abs_of_nonneg hS0
        rw [h1, h2, h3, hva]
        linarith
      · rw [if_neg hmz]
        push_neg at hmz
        show Ddd d m (-S) = v
        have hapos : 0 < a := by rw [ha]; exact abs_pos.mpr (ne_of_lt hv)
        have hSpos : 0 < S := by
          rcases lt_or_eq_of_le hS0 with h | h
          · exact h
          · exfalso
            rw [hdz, hmz] at hrecon
            push_cast at hrecon
            nlinarith
        have hflag : (d < 0 ∨ (d = 0 ∧ m < 0) ∨ (d = 0 ∧ m = 0 ∧ -S < 0)) :=
          Or.inr (Or.inr ⟨hdz, hmz, by linarith⟩)
        rw [Ddd_eval, if_pos hflag]
        have h3 : |(-S)| = S := by rw [abs_neg, abs_of_nonneg hS0]
        rw [hdz, hmz] at hrecon ⊢
        rw [h3, hva]
        push_cast at hrecon ⊢
        simp only [abs_zero]
        linarith
  · rw [if_neg hv]
    have hva : v = a := by rw [ha, abs_of_nonneg (not_lt.mp hv)]
    show Ddd d m S = v
    have hflag : ¬(d < 0 ∨ (d = 0 ∧ m < 0) ∨ (d = 0 ∧ m = 0 ∧ S < 0)) := by
      push_neg
      exact ⟨by omega, fun _ => by omega, fun _ _ => by linarith⟩
    rw [Ddd_eval, if_neg hflag]
    have h1 : |(d : ℚ)| = (d : ℚ) := abs_of_nonneg (by exact_mod_cast hd0)
    have h2 : |(m : ℚ)| = (m : ℚ) := abs_of_nonneg (by exact_mod_cast hm0)
    have h3 : |S| = S := abs_of_nonneg hS0
    rw [h1, h2, h3, hva]
    linarith

/-! ## Claims about the DMS converter -/

/-- C1: for every decimal-degree value `v` in `[-1000, 1000]`, recomposing
the triple produced by `DMS v` with `Ddd` reproduces `v` within `1e-9`
(in this exact-rational model the round trip is exact, so the bound holds). -/
theorem claim_C1_roundtrip (v : ℚ) (_h1 : -1000 ≤ v) (_h2 : v ≤ 1000) :
    |Ddd (DMS v).degrees (DMS v).minutes (DMS v).seconds - v| ≤ 1 / 1000000000 := by
  rw [Ddd_DMS_exact, sub_self, abs_zero]
  norm_num

unseal Rat.add Rat.sub Rat.mul Rat.inv in
theorem claim_C1_roundtrip_witness :
    (-1000 : ℚ) ≤ -815278/100000 ∧ (-815278/100000 : ℚ) ≤ 1000 ∧
    |Ddd (DMS (-815278/100000 : ℚ)).degrees (DMS (-815278/100000 : ℚ)).minutes
      (DMS (-815278/100000 : ℚ)).seconds - (-815278/100000)| ≤ 1 / 1000000000 :=
  ⟨by decide, by decide, claim_C1_roundtrip (-815278/100000) (by decide) (by decide)⟩

unseal Rat.add Rat.sub Rat.mul Rat.inv in
/-- C3: `DMS` truncates `|v|` to integer degrees, the remainder to integer
minutes and rational seconds, reapplies the stripped sign to the most
significant nonzero component (degrees, else minutes, else seconds), and
`getDMSComponents` sets `isNegativeZero` iff `v` was negative with zero
truncated degrees; concretely, decomposing `-8.15278` gives degrees `-8`,
minutes `9`, seconds `10.008`, and `isNegativeZero = false`. -/
theorem claim_C3_decompose (v : ℚ) :
    (0 ≤ v → DMS v =
      ⟨⌊|v|⌋, ⌊(|v| - (⌊|v|⌋ : ℚ)) * 60⌋,
        ((|v| - (⌊|v|⌋ : ℚ)) * 60 - (⌊(|v| - (⌊|v|⌋ : ℚ)) * 60⌋ : ℚ)) * 60⟩) ∧
    (v < 0 → ⌊|v|⌋ ≠ 0 → DMS v =
      ⟨-⌊|v|⌋, ⌊(|v| - (⌊|v|⌋ : ℚ)) * 60⌋,
        ((|v| - (⌊|v|⌋ : ℚ)) * 60 - (⌊(|v| - (⌊|v|⌋ : ℚ)) * 60⌋ : ℚ)) * 60⟩) ∧
    (v < 0 → ⌊|v|⌋ = 0 → ⌊(|v| - (⌊|v|⌋ : ℚ)) * 60⌋ ≠ 0 → DMS v =
      ⟨0, -⌊(|v| - (⌊|v|⌋ : ℚ)) * 60⌋,
        ((|v| - (⌊|v|⌋ : ℚ)) * 60 - (⌊(|v| - (⌊|v|⌋ : ℚ)) * 60⌋ : ℚ)) * 60⟩) ∧
    (v < 0 → ⌊|v|⌋ = 0 → ⌊(|v| - (⌊|v|⌋ : ℚ)) * 60⌋ = 0 → DMS v =
      ⟨0, 0,
        -(((|v| - (⌊|v|⌋ : ℚ)) * 60 - (⌊(|v| - (⌊|v|⌋ : ℚ)) * 60⌋ : ℚ)) * 60)⟩) ∧
    ((getDMSComponents v).isNegativeZero = true ↔ v < 0 ∧ ⌊|v|⌋ = 0) ∧
    getDMSComponents (-815278/100000 : ℚ) = ⟨-8, 9, 10008/1000, false⟩ := by
  have hDMS := DMS_eq v
  refine ⟨?_, ?_, ?_, ?_, ?_, by decide⟩
  · intro hv
    rw [hDMS, if_neg (not_lt.mpr hv)]
  · intro hv hdz
    rw [hDMS, if_pos hv, if_pos hdz]
  · intro hv hdz hmz
    rw [hDMS, if_pos hv, if_neg (not_not.mpr hdz), if_pos hmz, hdz]
  · intro hv hdz hmz
    rw [hDMS, if_pos hv, if_neg (not_not.mpr hdz), if_neg (not_not.mpr hmz),
      hmz, hdz]
  · unfold getDMSComponents
    simp only [decide_eq_true_eq]
    constructor
    · rintro ⟨hv, hdeg⟩
      refine ⟨hv, ?_⟩
      rw [hDMS, if_pos hv] at hdeg
      by_cases hdz : ⌊|v|⌋ ≠ 0
      · rw [if_pos hdz] at hdeg
        simpa using hdeg
      · exact not_not.mp hdz
    · rintro ⟨hv, hdz⟩
      refine ⟨hv, ?_⟩
      rw [hDMS, if_pos hv, if_neg (not_not.mpr hdz)]
      by_cases hmz : ⌊(|v| - (⌊|v|⌋ : ℚ)) * 60⌋ ≠ 0
      · rw [if_pos hmz]
        exact hdz
      · rw [if_neg hmz]
        exact hdz

unseal Rat.add Rat.sub Rat.mul Rat.inv in
theorem claim_C3_decompose_witness :
    DMS (-815278/100000 : ℚ) =
      ⟨-⌊|(-815278/100000 : ℚ)|⌋,
        ⌊(|(-815278/100000 : ℚ)| - (⌊|(-815278/100000 : ℚ)|⌋ : ℚ)) * 60⌋,
        ((|(-815278/100000 : ℚ)| - (⌊|(-815278/100000 : ℚ)|⌋ : ℚ)) * 60 -
          (⌊(|(-815278/100000 : ℚ)| - (⌊|(-815278/100000 : ℚ)|⌋ : ℚ)) * 60⌋ : ℚ)) * 60⟩ :=
  (claim_C3_decompose (-815278/100000)).2.1 (by decide) (by decide)

/-- C4: `Ddd` accepts every integer degrees/minutes and rational seconds
(even out-of-range ones) and returns the value of magnitude
`|degrees| + |minutes|/60 + |seconds|/3600`, negative exactly when
`degrees < 0`, or `degrees = 0 ∧ minutes < 0`, or
`degrees = minutes = 0 ∧ seconds < 0`. -/
theorem claim_C4_recompose (d m : ℤ) (s : ℚ) :
    |Ddd d m s| = |(d : ℚ)| + |(m : ℚ)| / 60 + |s| / 3600 ∧
    (Ddd d m s < 0 ↔
      (d < 0 ∨ (d = 0 ∧ m < 0) ∨ (d = 0 ∧ m = 0 ∧ s < 0))) := by
  have hmag : (0 : ℚ) ≤ |(d : ℚ)| + |(m : ℚ)| / 60 + |s| / 3600 := by positivity
  rw [Ddd_eval]
  by_cases hflag : d < 0 ∨ (d = 0 ∧ m < 0) ∨ (d = 0 ∧ m = 0 ∧ s < 0)
  · rw [if_pos hflag]
    have hpos : (0 : ℚ) < |(d : ℚ)| + |(m : ℚ)| / 60 + |s| / 3600 := by
      rcases hflag with h | ⟨_, h⟩ | ⟨_, _, h⟩
      · have : (0 : ℚ) < |(d : ℚ)| := abs_pos.mpr (by exact_mod_cast ne_of_lt h)
        positivity
      · have : (0 : ℚ) < |(m : ℚ)| := abs_pos.mpr (by exact_mod_cast ne_of_lt h)
        positivity
      · have : (0 : ℚ) < |s| := abs_pos.mpr (ne_of_lt h)
        positivity
    refine ⟨by rw [abs_neg, abs_of_nonneg hmag], ?_⟩
    exact ⟨fun _ => hflag, fun _ => by linarith⟩
  · rw [if_neg hflag]
    refine ⟨abs_of_nonneg hmag, ?_⟩
    constructor
    · intro hlt
      exact absurd hlt (not_lt.mpr hmag)
    · intro h
      exact absurd h hflag

/-! ## Claims about range validation (C6) -/

unseal Rat.add Rat.sub Rat.mul Rat.inv in
/-- C6: the parser's range validators accept minutes and seconds of
magnitude strictly below 60 and reject magnitude 60 or more with the
out-of-range error naming the component; in particular `parse("12 60")`
fails with the minutes out-of-range error. -/
theorem claim_C6_range_validation :
    (∀ (m : ℤ) (o : String),
      (|m| < 60 → validateMinutesInt m o = .ok ()) ∧
      (60 ≤ |m| → validateMinutesInt m o = .error (.outOfRangeMinutesInt m o))) ∧
    (∀ (m : ℚ) (o : String),
      (|m| < 60 → validateMinutesFloat m o = .ok ()) ∧
      (60 ≤ |m| → validateMinutesFloat m o = .error (.outOfRangeMinutesFloat m o))) ∧
    (∀ (s : ℤ) (o : String),
      (|s| < 60 → validateSecondsInt s o = .ok ()) ∧
      (60 ≤ |s| → validateSecondsInt s o = .error (.outOfRangeSecondsInt s o))) ∧
    (∀ (s : ℚ) (o : String),
      (|s| < 60 → validateSecondsFloat s o = .ok ()) ∧
      (60 ≤ |s| → validateSecondsFloat s o = .error (.outOfRangeSecondsFloat s o))) ∧
    ParseAngle "12 60" = .error (.outOfRangeMinutesInt 60 "12 60") := by
  have htrunc : ratTrunc MaxSeconds = 60 := by decide
  refine ⟨fun m o => ⟨fun h => ?_, fun h => ?_⟩, fun m o => ⟨fun h => ?_, fun h => ?_⟩,
    fun s o => ⟨fun h => ?_, fun h => ?_⟩, fun s o => ⟨fun h => ?_, fun h => ?_⟩,
    by decide⟩
  · rw [Int.abs_eq_natAbs] at h
    unfold validateMinutesInt MaxMinutes
    rw [if_neg (by omega)]
  · rw [Int.abs_eq_natAbs] at h
    unfold validateMinutesInt MaxMinutes
    rw [if_pos (by omega)]
  · unfold validateMinutesFloat MaxMinutes
    rw [if_neg (by push_cast; linarith)]
  · unfold validateMinutesFloat MaxMinutes
    rw [if_pos (by push_cast; linarith)]
  · rw [Int.abs_eq_natAbs] at h
    unfold validateSecondsInt
    rw [htrunc, if_neg (by omega)]
  · rw [Int.abs_eq_natAbs] at h
    unfold validateSecondsInt
    rw [htrunc, if_pos (by omega)]
  · unfold validateSecondsFloat MaxSeconds
    rw [if_neg (by linarith)]
  · unfold validateSecondsFloat MaxSeconds
    rw [if_pos (by linarith)]

unseal Rat.add Rat.sub Rat.mul Rat.inv in
theorem claim_C6_range_validation_witness :
    validateMinutesInt 60 "12 60" = .error (.outOfRangeMinutesInt 60 "12 60") ∧
    validateMinutesInt 59 "12 59" = .ok () ∧
    validateSecondsFloat (599/10) "x" = .ok () :=
  ⟨(claim_C6_range_validation.1 60 "12 60").2 (by decide),
    (claim_C6_range_validation.1 59 "12 59").1 (by decide),
    ((claim_C6_range_validation.2.2.2.1 (599/10) "x").1 (by decide))⟩

/-! ## Claims about the formatter (C8, C9) -/

unseal Rat.add Rat.sub Rat.mul Rat.inv in
/-- C8 counterexample: formatting `12.3456` as `Dd` with precision `-1`
does not produce the same string as with precision `0` (Go's `fmt` treats
a negative star-precision as absent, so `%f`'s default of 6 fraction
digits applies, yielding `"12.345600"` instead of `"12"`). -/
theorem claim_C8_counterexample :
    formatAngle (123456/10000) .Dd (-1) 0 false ≠
      formatAngle (123456/10000) .Dd 0 0 false := by decide

/-- C8 (amended): a negative precision argument behaves as an absent
precision, i.e. as `%f`'s default precision 6 — for every angle value,
format tag and width, formatting with any negative precision produces the
same string as formatting with precision `6` (not `0`). -/
theorem claim_C8_negative_precision (alpha : ℚ) (format : AngleFormat)
    (w : ℤ) (b : Bool) (p : ℤ) (hp : p < 0) :
    formatAngle alpha format p w b = formatAngle alpha format 6 w b := by
  have hF : ∀ q, goFmtF p q = goFmtF 6 q := by
    intro q
    simp only [goFmtF]
    rw [if_pos hp]
    norm_num
  unfold formatAngle formatAngleCore
  cases format <;> cases b <;> simp only [hF]

unseal Rat.add Rat.sub Rat.mul Rat.inv in
theorem claim_C8_negative_precision_witness :
    formatAngle (123456/10000) .Dd (-1) 0 false =
      formatAngle (123456/10000) .Dd 6 0 false :=
  claim_C8_negative_precision (123456/10000) .Dd 0 false (-1) (by decide)

unseal Rat.add Rat.sub Rat.mul Rat.inv in
/-- C9: with width `w ≥ 0` the formatter left-justifies by right-padding
the rendered string with spaces to at least `w` characters and never
truncates: the output is the unpadded rendering followed by spaces, of
length `max w (unpadded length)`; in particular
`format(12.3456, Dd, 2, 10)` is `"12.35"` followed by five spaces. -/
theorem claim_C9_width_padding (alpha : ℚ) (format : AngleFormat)
    (prec w : ℤ) (b : Bool) (hw : 0 ≤ w) :
    (formatAngle alpha format prec w b =
      formatAngle alpha format prec 0 b ++
        ⟨List.replicate
          (w.toNat - (formatAngle alpha format prec 0 b).data.length) ' '⟩) ∧
    (formatAngle alpha format prec w b).data.length =
      max w.toNat (formatAngle alpha format prec 0 b).data.length ∧
    formatAngle (123456/10000) .Dd 2 10 false = "12.35     " := by
  have hfa : ∀ w' : ℤ, formatAngle alpha format prec w' b =
      if 0 < w' then goPadRight w' (formatAngleCore alpha format prec b)
      else formatAngleCore alpha format prec b := fun _ => rfl
  rw [hfa w, hfa 0, if_neg (by norm_num : ¬(0:ℤ) < 0)]
  generalize formatAngleCore alpha format prec b = s
  obtain ⟨l⟩ := s
  refine ⟨?_, ?_, by decide⟩
  · by_cases hw0 : 0 < w
    · rw [if_pos hw0]
      rfl
    · rw [if_neg hw0]
      have hwz : w = 0 := le_antisymm (not_lt.mp hw0) hw
      subst hwz
      show (⟨l⟩ : String) = ⟨l ++ List.replicate ((0:ℤ).toNat - l.length) ' '⟩
      simp
  · by_cases hw0 : 0 < w
    · rw [if_pos hw0]
      show (l ++ List.replicate (w.toNat - l.length) ' ').length = _
      rw [List.length_append, List.length_replicate]
      show _ = max w.toNat l.length
      omega
    · rw [if_neg hw0]
      have hwz : w = 0 := le_antisymm (not_lt.mp hw0) hw
      subst hwz
      show l.length = max (0:ℤ).toNat l.length
      simp

unseal Rat.add Rat.sub Rat.mul Rat.inv in
theorem claim_C9_width_padding_witness :
    formatAngle (123456/10000) .Dd 2 10 false = "12.35     " :=
  (claim_C9_width_padding (123456/10000) .Dd 2 10 false (by decide)).2.2

/-! ## Helper lemmas about the parser -/

/-- A successful `ParseAngle` dispatches on the fields of the trimmed
input: one, two or three components, handled by the respective format
parser with the original input passed through. -/
lemma ParseAngle_ok_parts {input : String} {a : Angle}
    (h : ParseAngle input = .ok a) :
    (∃ p0, fields (trimSpace input) = [p0] ∧ parseDdFormat p0 input = .ok a) ∨
    (∃ p0 p1, fields (trimSpace input) = [p0, p1] ∧
      parseDMMFormat p0 p1 input = .ok a) ∨
    (∃ p0 p1 p2, fields (trimSpace input) = [p0, p1, p2] ∧
      parseDMMSSFormat p0 p1 p2 input = .ok a) := by
  unfold ParseAngle at h
  simp only [] at h
  split at h
  · exact (Except.noConfusion h)
  · split at h
    · exact (Except.noConfusion h)
    · split at h
      · exact (Except.noConfusion h)
      · split at h
        · exact (Except.noConfusion h)
        · split at h
          · exact (Except.noConfusion h)
          · split at h
            · rename_i p0 heq
              exact Or.inl ⟨p0, heq, h⟩
            · rename_i p0 p1 heq
              exact Or.inr (Or.inl ⟨p0, p1, heq, h⟩)
            · rename_i p0 p1 p2 heq
              exact Or.inr (Or.inr ⟨p0, p1, p2, heq, h⟩)
            · exact (Except.noConfusion h)

/-- A successful `parseDdFormat` is tagged `Dd`. -/
lemma parseDdFormat_ok_format {p o : String} {a : Angle}
    (h : parseDdFormat p o = .ok a) : a.format = .Dd := by
  unfold parseDdFormat at h
  split at h
  · exact (Except.noConfusion h)
  · cases h
    rfl

/-- A successful `parseDMMFormat` is tagged `DMMm` when the minutes token
has a dot, `DMM` otherwise. -/
lemma parseDMMFormat_ok_format {d m o : String} {a : Angle}
    (h : parseDMMFormat d m o = .ok a) :
    a.format = if containsRune m '.' then .DMMm else .DMM := by
  unfold parseDMMFormat at h
  split at h
  · exact (Except.noConfusion h)
  · split at h
    · rename_i hdot
      rw [if_pos hdot]
      split at h
      · exact (Except.noConfusion h)
      · split at h
        · exact (Except.noConfusion h)
        · cases h
          rfl
    · rename_i hdot
      rw [if_neg hdot]
      split at h
      · exact (Except.noConfusion h)
      · split at h
        · exact (Except.noConfusion h)
        · cases h
          rfl

/-- A successful `parseDMMSSFormat` is tagged `DMMSSs` when the seconds
token has a dot, `DMMSS` otherwise. -/
lemma parseDMMSSFormat_ok_format {d m s o : String} {a : Angle}
    (h : parseDMMSSFormat d m s o = .ok a) :
    a.format = if containsRune s '.' then .DMMSSs else .DMMSS := by
  unfold parseDMMSSFormat at h
  simp only [] at h
  split at h
  · exact (Except.noConfusion h)
  · split at h
    · exact (Except.noConfusion h)
    · split at h
      · exact (Except.noConfusion h)
      · split at h
        · rename_i hdot
          rw [if_pos hdot]
          split at h
          · exact (Except.noConfusion h)
          · split at h
            · exact (Except.noConfusion h)
            · cases h
              rfl
        · rename_i hdot
          rw [if_neg hdot]
          split at h
          · exact (Except.noConfusion h)
          · split at h
            · exact (Except.noConfusion h)
            · cases h
              rfl

/-! ## Claim C5: positional format inference -/

unseal Rat.add Rat.sub Rat.mul Rat.inv in
/-- C5: format inference is purely positional — a successfully parsed
input is tagged by component count alone: one component gives `Dd`, two
give `DMM`/`DMMm` by a dot in the second, three give `DMMSS`/`DMMSSs` by a
dot in the third; and the five concrete inference examples hold. -/
theorem claim_C5_format_inference :
    (∀ input a, ParseAngle input = .ok a →
      (∀ p0, fields (trimSpace input) = [p0] → a.format = .Dd) ∧
      (∀ p0 p1, fields (trimSpace input) = [p0, p1] →
        a.format = if containsRune p1 '.' then .DMMm else .DMM) ∧
      (∀ p0 p1 p2, fields (trimSpace input) = [p0, p1, p2] →
        a.format = if containsRune p2 '.' then .DMMSSs else .DMMSS)) ∧
    (ParseAngle "12.35").map Angle.format = .ok .Dd ∧
    (ParseAngle "12 20").map Angle.format = .ok .DMM ∧
    (ParseAngle "12 20.74").map Angle.format = .ok .DMMm ∧
    (ParseAngle "12 20 44").map Angle.format = .ok .DMMSS ∧
    (ParseAngle "12 20 44.16").map Angle.format = .ok .DMMSSs := by
  refine ⟨?_, by decide, by decide, by decide, by decide, by decide⟩
  intro input a h
  rcases ParseAngle_ok_parts h with ⟨q0, hq, hd⟩ | ⟨q0, q1, hq, hd⟩ |
    ⟨q0, q1, q2, hq, hd⟩
  · refine ⟨?_, ?_, ?_⟩
    · intro p0 hp
      exact parseDdFormat_ok_format hd
    · intro p0 p1 hp
      rw [hq] at hp
      exact absurd (congrArg List.length hp) (by simp)
    · intro p0 p1 p2 hp
      rw [hq] at hp
      exact absurd (congrArg List.length hp) (by simp)
  · refine ⟨?_, ?_, ?_⟩
    · intro p0 hp
      rw [hq] at hp
      exact absurd (congrArg List.length hp) (by simp)
    · intro p0 p1 hp
      rw [hq] at hp
      cases hp
      exact parseDMMFormat_ok_format hd
    · intro p0 p1 p2 hp
      rw [hq] at hp
      exact absurd (congrArg List.length hp) (by simp)
  · refine ⟨?_, ?_, ?_⟩
    · intro p0 hp
      rw [hq] at hp
      exact absurd (congrArg List.length hp) (by simp)
    · intro p0 p1 hp
      rw [hq] at hp
      exact absurd (congrArg List.length hp) (by simp)
    · intro p0 p1 p2 hp
      rw [hq] at hp
      cases hp
      exact parseDMMSSFormat_ok_format hd

/-! ## Helper lemmas about numeric components -/

/-- A successful `parseIntegerComponent` is exactly a successful `Atoi`. -/
lemma parseIntegerComponent_ok_atoi {str n o : String} {v : ℤ}
    (h : parseIntegerComponent str n o = .ok v) : goAtoi str = some v := by
  unfold parseIntegerComponent at h
  split at h
  · exact (Except.noConfusion h)
  · split at h
    · exact (Except.noConfusion h)
    · split at h
      · exact (Except.noConfusion h)
      · rename_i v' heq
        cases h
        exact heq

/-- Lemma: `Atoi` on a token with no minus sign returns a nonnegative value. -/
lemma goAtoi_nonneg {s : String} {v : ℤ} (h : goAtoi s = some v)
    (hm : ∀ c ∈ s.data, c ≠ '-') : 0 ≤ v := by
  unfold goAtoi at h
  split at h
  · exact (Option.noConfusion h)
  · rename_i c cs heq
    have hc : c ≠ '-' := hm c (by rw [heq]; exact List.mem_cons_self c cs)
    simp only [] at h
    rw [if_neg hc] at h
    by_cases hp : c = '-' ∨ c = '+'
    · rw [if_pos hp] at h
      split at h
      · rw [Option.some.injEq] at h
        rw [← h]
        exact Int.natCast_nonneg _
      · exact (Option.noConfusion h)
    · rw [if_neg hp] at h
      split at h
      · rw [Option.some.injEq] at h
        rw [← h]
        exact Int.natCast_nonneg _
      · exact (Option.noConfusion h)

/-- A decimal mantissa value is nonnegative. -/
lemma parseDecMantissa_nonneg {l : List Char} {q : ℚ}
    (h : parseDecMantissa l = some q) : 0 ≤ q := by
  unfold parseDecMantissa at h
  simp only [] at h
  split at h
  · split at h
    · exact (Option.noConfusion h)
    · split at h
      · exact (Option.noConfusion h)
      · rw [Option.some.injEq] at h
        rw [← h]
        positivity
  · split at h
    · exact (Option.noConfusion h)
    · split at h
      · exact (Option.noConfusion h)
      · rw [Option.some.injEq] at h
        rw [← h]
        positivity

/-- A hexadecimal mantissa value is nonnegative. -/
lemma parseHexMantissa_nonneg {l : List Char} {q : ℚ}
    (h : parseHexMantissa l = some q) : 0 ≤ q := by
  unfold parseHexMantissa at h
  simp only [] at h
  split at h
  · split at h
    · exact (Option.noConfusion h)
    · split at h
      · exact (Option.noConfusion h)
      · rw [Option.some.injEq] at h
        rw [← h]
        positivity
  · split at h
    · exact (Option.noConfusion h)
    · split at h
      · exact (Option.noConfusion h)
      · rw [Option.some.injEq] at h
        rw [← h]
        positivity

/-- Lemma: `ParseFloat` on a token with no minus sign returns a nonnegative value. -/
lemma goParseFloat_nonneg {s : String} {q : ℚ}
    (h : goParseFloat s = some (.finite q)) (hm : ∀ c ∈ s.data, c ≠ '-') :
    0 ≤ q := by
  unfold goParseFloat at h
  split at h
  · exact (Option.noConfusion h)
  · rename_i c cs heq
    have hc : c ≠ '-' := hm c (by rw [heq]; exact List.mem_cons_self c cs)
    simp only [] at h
    by_cases hp : c = '-' ∨ c = '+'
    · rw [if_pos hp] at h
      split at h
      · exact absurd h (by simp)
      · split at h
        · exact (Option.noConfusion h)
        · rename_i q0 hq0
          rw [Option.some.injEq, GoFloat.finite.injEq] at h
          rw [← h]
          split at hq0
          · exact parseHexMantissa_nonneg hq0
          · exact parseDecMantissa_nonneg hq0
    · rw [if_neg hp] at h
      split at h
      · exact absurd h (by simp)
      · split at h
        · exact (Option.noConfusion h)
        · rename_i q0 hq0
          rw [Option.some.injEq, GoFloat.finite.injEq] at h
          rw [← h]
          split at hq0
          · exact parseHexMantissa_nonneg hq0
          · exact parseDecMantissa_nonneg hq0

/-- A successful `parseFloatComponent` is a successful finite `ParseFloat`. -/
lemma parseFloatComponent_ok_float {str n o : String} {q : ℚ}
    (h : parseFloatComponent str n o = .ok q) :
    goParseFloat str = some (.finite q) := by
  unfold parseFloatComponent at h
  split at h
  · exact (Except.noConfusion h)
  · split at h
    · exact (Except.noConfusion h)
    · split at h
      · exact (Except.noConfusion h)
      · exact (Except.noConfusion h)
      · rename_i q' heq
        cases h
        exact heq

/-- Lemma: `Ddd` of nonnegative components is nonnegative. -/
lemma Ddd_nonneg {d m : ℤ} {s : ℚ} (hd : 0 ≤ d) (hm : 0 ≤ m) (hs : 0 ≤ s) :
    0 ≤ Ddd d m s := by
  rw [Ddd_eval, if_neg (by push_neg; exact ⟨by omega, fun _ => by omega,
    fun _ _ => by linarith⟩)]
  positivity

/-! ## Helper lemmas about `fields` and `trimSpace` (for C10) -/

/-- Lemma: `fieldsCore` with a nonempty accumulator never returns the empty list. -/
lemma fieldsCore_ne_nil {l acc : List Char} (h : acc ≠ []) :
    fieldsCore l acc ≠ [] := by
  induction l generalizing acc with
  | nil =>
    unfold fieldsCore
    rw [if_neg h]
    simp
  | cons c cs ih =>
    unfold fieldsCore
    by_cases hsp : isGoSpace c
    · rw [if_pos hsp, if_neg h]
      simp
    · rw [if_neg hsp]
      exact ih (by simp)

/-- Every field produced by `fieldsCore` is nonempty. -/
lemma fieldsCore_mem_ne_nil {l acc x : List Char}
    (hx : x ∈ fieldsCore l acc) : x ≠ [] := by
  induction l generalizing acc with
  | nil =>
    unfold fieldsCore at hx
    split at hx
    · exact absurd hx (List.not_mem_nil x)
    · rename_i h
      rw [List.mem_singleton] at hx
      subst hx
      simpa using h
  | cons c cs ih =>
    unfold fieldsCore at hx
    split at hx
    · split at hx
      · exact ih hx
      · rename_i h
        rw [List.mem_cons] at hx
        rcases hx with hx | hx
        · subst hx
          simpa using h
        · exact ih hx
    · exact ih hx

/-- Lemma: `fieldsCore` on an all-whitespace list with empty accumulator is empty. -/
lemma fieldsCore_nil_of_all_space {l : List Char}
    (h : ∀ c ∈ l, isGoSpace c = true) : fieldsCore l [] = [] := by
  induction l with
  | nil => rfl
  | cons c cs ih =>
    unfold fieldsCore
    rw [if_pos (h c (List.mem_cons_self c cs)), if_pos rfl]
    exact ih fun d hd => h d (List.mem_cons_of_mem c hd)

/-- Lemma: `fieldsCore` is nonempty as soon as the input has a non-space char. -/
lemma fieldsCore_ne_nil_of_mem {l : List Char} {c : Char} (hc : c ∈ l)
    (hns : isGoSpace c = false) : fieldsCore l [] ≠ [] := by
  intro hnil
  induction l with
  | nil => exact absurd hc (List.not_mem_nil c)
  | cons d ds ih =>
    unfold fieldsCore at hnil
    by_cases hsp : isGoSpace d
    · rw [if_pos hsp, if_pos rfl] at hnil
      rcases List.mem_cons.mp hc with h | h
      · subst h
        rw [hsp] at hns
        exact Bool.noConfusion hns
      · exact ih h hnil
    · rw [if_neg hsp] at hnil
      exact fieldsCore_ne_nil (by simp) hnil

/-- The head of a `dropWhile` result fails the predicate. -/
lemma head?_dropWhile_false {p : Char → Bool} {l : List Char} {c : Char}
    (h : (l.dropWhile p).head? = some c) : p c = false := by
  induction l with
  | nil => simp at h
  | cons d ds ih =>
    by_cases hd : p d
    · rw [List.dropWhile_cons_of_pos hd] at h
      exact ih h
    · rw [List.dropWhile_cons_of_neg hd] at h
      rw [List.head?_cons, Option.some.injEq] at h
      subst h
      simpa using hd

/-- A nonempty trimmed string contains a non-whitespace character. -/
lemma trimSpace_has_nonspace {s : String} (h : trimSpace s ≠ "") :
    ∃ c ∈ (trimSpace s).data, isGoSpace c = false := by
  cases hrc : (s.data.dropWhile isGoSpace).reverse.dropWhile isGoSpace with
  | nil =>
    exfalso
    apply h
    show String.mk
      (((s.data.dropWhile isGoSpace).reverse.dropWhile isGoSpace).reverse) = ""
    rw [hrc]
    rfl
  | cons c cs =>
    refine ⟨c, ?_, ?_⟩
    · show c ∈ ((s.data.dropWhile isGoSpace).reverse.dropWhile isGoSpace).reverse
      rw [hrc, List.mem_reverse]
      exact List.mem_cons_self c cs
    · exact head?_dropWhile_false (by rw [hrc]; rfl)

/-- The fields of a nonempty trimmed string are nonempty: the
`no valid components` branch of `ParseAngle` is unreachable. -/
lemma fields_trimSpace_ne_nil {s : String} (h : trimSpace s ≠ "") :
    fields (trimSpace s) ≠ [] := by
  obtain ⟨c, hc, hns⟩ := trimSpace_has_nonspace h
  unfold fields
  intro hnil
  rw [List.map_eq_nil_iff] at hnil
  exact fieldsCore_ne_nil_of_mem hc hns hnil

/-- No field of any string is the empty string: the `empty component`
branch of `ParseAngle` is unreachable. -/
lemma fields_ne_empty {s x : String} (hx : x ∈ fields s) : x ≠ "" := by
  unfold fields at hx
  rw [List.mem_map] at hx
  obtain ⟨l, hl, rfl⟩ := hx
  intro hempty
  apply fieldsCore_mem_ne_nil hl
  have : (String.mk l).data = ("" : String).data := by rw [hempty]
  simpa using this

/-- A successful `findIdx?` found a satisfying element. -/
lemma findIdx?_some_mem {α : Type} {p : α → Bool} {l : List α} {i : ℕ} :
    ∀ {j : ℕ}, l.findIdx? p j = some i → ∃ x ∈ l, p x = true := by
  induction l with
  | nil =>
    intro j h
    exact absurd h (by simp [List.findIdx?])
  | cons c cs ih =>
    intro j h
    rw [List.findIdx?_cons] at h
    by_cases hc : p c
    · exact ⟨c, List.mem_cons_self c cs, hc⟩
    · rw [if_neg hc] at h
      obtain ⟨x, hx, hpx⟩ := ih h
      exact ⟨x, List.mem_cons_of_mem c hx, hpx⟩

/-! ## Error-echo machinery (for C10) -/

/-- Replace the echoed original-input string of an error. -/
def ParseErr.withOrig : ParseErr → String → ParseErr
  | .emptyInput, _ => .emptyInput
  | .whitespaceOnly, _ => .whitespaceOnly
  | .invalidCharacter c _, o => .invalidCharacter c o
  | .noValidComponents _, o => .noValidComponents o
  | .emptyComponent i _, o => .emptyComponent i o
  | .tooManyComponents n _, o => .tooManyComponents n o
  | .multipleSigns c _, o => .multipleSigns c o
  | .misplacedSign c _, o => .misplacedSign c o
  | .unexpectedDecimalPoint c _, o => .unexpectedDecimalPoint c o
  | .invalidIntValue c _, o => .invalidIntValue c o
  | .multipleDecimalPoints c _, o => .multipleDecimalPoints c o
  | .invalidFloatValue c _, o => .invalidFloatValue c o
  | .nonFiniteValue c _, o => .nonFiniteValue c o
  | .outOfRangeMinutesInt g _, o => .outOfRangeMinutesInt g o
  | .outOfRangeMinutesFloat g _, o => .outOfRangeMinutesFloat g o
  | .outOfRangeSecondsInt g _, o => .outOfRangeSecondsInt g o
  | .outOfRangeSecondsFloat g _, o => .outOfRangeSecondsFloat g o

/-- Erase the echoed original input of an error. -/
def stripOrig (e : ParseErr) : ParseErr := e.withOrig ""

/-- A parse outcome up to the echoed original input: the angle on success,
the error with its echo erased on failure. -/
def resultKind (r : Except ParseErr Angle) : Except ParseErr Angle :=
  r.mapError stripOrig

lemma withOrig_withOrig (e : ParseErr) (o o' : String) :
    (e.withOrig o).withOrig o' = e.withOrig o' := by
  cases e <;> rfl

lemma resultKind_mapError_withOrig (x : Except ParseErr Angle) (o : String) :
    resultKind (x.mapError (·.withOrig o)) = resultKind x := by
  cases x with
  | error e =>
    show Except.error (stripOrig (ParseErr.withOrig e o)) = Except.error (stripOrig e)
    unfold stripOrig
    rw [withOrig_withOrig]
  | ok a => rfl

/-- Lemma: `validateNumericString` depends on the original input only through the
echo of its errors. -/
lemma validateNumericString_withOrig (str n o : String) :
    validateNumericString str n o =
      (validateNumericString str n "").mapError (·.withOrig o) := by
  unfold validateNumericString
  simp only []
  split
  · rfl
  · split
    · rfl
    · rfl

/-- Lemma: `parseIntegerComponent` depends on the original input only through the
echo of its errors. -/
lemma parseIntegerComponent_withOrig (str n o : String) :
    parseIntegerComponent str n o =
      (parseIntegerComponent str n "").mapError (·.withOrig o) := by
  unfold parseIntegerComponent
  rw [validateNumericString_withOrig str n o]
  cases validateNumericString str n "" with
  | error e => rfl
  | ok u =>
    simp only [Except.mapError]
    split
    · rfl
    · cases goAtoi str with
      | none => rfl
      | some v => rfl

/-- Lemma: `parseFloatComponent` depends on the original input only through the
echo of its errors. -/
lemma parseFloatComponent_withOrig (str n o : String) :
    parseFloatComponent str n o =
      (parseFloatComponent str n "").mapError (·.withOrig o) := by
  unfold parseFloatComponent
  rw [validateNumericString_withOrig str n o]
  cases validateNumericString str n "" with
  | error e => rfl
  | ok u =>
    simp only [Except.mapError]
    split
    · rfl
    · cases goParseFloat str with
      | none => rfl
      | some v =>
        cases v with
        | nonfinite => rfl
        | finite q => rfl

lemma validateMinutesInt_withOrig (m : ℤ) (o : String) :
    validateMinutesInt m o = (validateMinutesInt m "").mapError (·.withOrig o) := by
  unfold validateMinutesInt
  split
  · rfl
  · rfl

lemma validateMinutesFloat_withOrig (m : ℚ) (o : String) :
    validateMinutesFloat m o = (validateMinutesFloat m "").mapError (·.withOrig o) := by
  unfold validateMinutesFloat
  split
  · rfl
  · rfl

lemma validateSecondsInt_withOrig (m : ℤ) (o : String) :
    validateSecondsInt m o = (validateSecondsInt m "").mapError (·.withOrig o) := by
  unfold validateSecondsInt
  split
  · rfl
  · rfl

lemma validateSecondsFloat_withOrig (m : ℚ) (o : String) :
    validateSecondsFloat m o = (validateSecondsFloat m "").mapError (·.withOrig o) := by
  unfold validateSecondsFloat
  split
  · rfl
  · rfl

/-- Lemma: `parseDdFormat` depends on the original input only through the echo of
its errors. -/
lemma parseDdFormat_withOrig (p o : String) :
    parseDdFormat p o = (parseDdFormat p "").mapError (·.withOrig o) := by
  unfold parseDdFormat
  rw [parseFloatComponent_withOrig p "decimal degrees" o]
  cases parseFloatComponent p "decimal degrees" "" with
  | error e => rfl
  | ok q => rfl

/-- Lemma: `parseDMMFormat` depends on the original input only through the echo
of its errors. -/
lemma parseDMMFormat_withOrig (d m o : String) :
    parseDMMFormat d m o = (parseDMMFormat d m "").mapError (·.withOrig o) := by
  unfold parseDMMFormat
  rw [parseIntegerComponent_withOrig d "degrees" o]
  cases parseIntegerComponent d "degrees" "" with
  | error e => rfl
  | ok dv =>
    simp only [Except.mapError]
    split
    · rw [parseFloatComponent_withOrig m "minutes" o]
      cases parseFloatComponent m "minutes" "" with
      | error e => rfl
      | ok mv =>
        simp only [Except.mapError]
        rw [validateMinutesFloat_withOrig mv o]
        cases validateMinutesFloat mv "" with
        | error e => rfl
        | ok u => rfl
    · rw [parseIntegerComponent_withOrig m "minutes" o]
      cases parseIntegerComponent m "minutes" "" with
      | error e => rfl
      | ok mv =>
        simp only [Except.mapError]
        rw [validateMinutesInt_withOrig mv o]
        cases validateMinutesInt mv "" with
        | error e => rfl
        | ok u => rfl

/-- Lemma: `parseDMMSSFormat` depends on the original input only through the echo
of its errors. -/
lemma parseDMMSSFormat_withOrig (d m t o : String) :
    parseDMMSSFormat d m t o =
      (parseDMMSSFormat d m t "").mapError (·.withOrig o) := by
  unfold parseDMMSSFormat
  rw [parseIntegerComponent_withOrig d "degrees" o]
  cases parseIntegerComponent d "degrees" "" with
  | error e => rfl
  | ok dv =>
    simp only [Except.mapError]
    rw [parseIntegerComponent_withOrig m "minutes" o]
    cases parseIntegerComponent m "minutes" "" with
    | error e => rfl
    | ok mv =>
      simp only [Except.mapError]
      rw [validateMinutesInt_withOrig mv o]
      cases validateMinutesInt mv "" with
      | error e => rfl
      | ok u =>
        simp only [Except.mapError]
        split
        · rw [parseFloatComponent_withOrig t "seconds" o]
          cases parseFloatComponent t "seconds" "" with
          | error e => rfl
          | ok sv =>
            simp only [Except.mapError]
            rw [validateSecondsFloat_withOrig sv o]
            cases validateSecondsFloat sv "" with
            | error e => rfl
            | ok u2 => rfl
        · rw [parseIntegerComponent_withOrig t "seconds" o]
          cases parseIntegerComponent t "seconds" "" with
          | error e => rfl
          | ok sv =>
            simp only [Except.mapError]
            rw [validateSecondsInt_withOrig sv o]
            cases validateSecondsInt sv "" with
            | error e => rfl
            | ok u2 => rfl

/-- The two error kinds whose producing branches are claimed unreachable:
`no valid components found` and `component is empty`. -/
def ParseErr.isCompSplit : ParseErr → Bool
  | .noValidComponents _ => true
  | .emptyComponent _ _ => true
  | _ => false

lemma validateNumericString_notSplit {s n o : String} {e : ParseErr}
    (h : validateNumericString s n o = .error e) : e.isCompSplit = false := by
  unfold validateNumericString at h
  simp only [] at h
  split at h
  · cases h
    rfl
  · split at h
    · cases h
      rfl
    · exact (Except.noConfusion h)

lemma parseIntegerComponent_notSplit {s n o : String} {e : ParseErr}
    (h : parseIntegerComponent s n o = .error e) : e.isCompSplit = false := by
  unfold parseIntegerComponent at h
  split at h
  · rename_i e' heq
    cases h
    exact validateNumericString_notSplit heq
  · split at h
    · cases h
      rfl
    · split at h
      · cases h
        rfl
      · exact (Except.noConfusion h)

lemma parseFloatComponent_notSplit {s n o : String} {e : ParseErr}
    (h : parseFloatComponent s n o = .error e) : e.isCompSplit = false := by
  unfold parseFloatComponent at h
  split at h
  · rename_i e' heq
    cases h
    exact validateNumericString_notSplit heq
  · split at h
    · cases h
      rfl
    · split at h
      · cases h
        rfl
      · cases h
        rfl
      · exact (Except.noConfusion h)

lemma validateMinutesInt_notSplit {m : ℤ} {o : String} {e : ParseErr}
    (h : validateMinutesInt m o = .error e) : e.isCompSplit = false := by
  unfold validateMinutesInt at h
  split at h
  · cases h
    rfl
  · exact (Except.noConfusion h)

lemma validateMinutesFloat_notSplit {m : ℚ} {o : String} {e : ParseErr}
    (h : validateMinutesFloat m o = .error e) : e.isCompSplit = false := by
  unfold validateMinutesFloat at h
  split at h
  · cases h
    rfl
  · exact (Except.noConfusion h)

lemma validateSecondsInt_notSplit {m : ℤ} {o : String} {e : ParseErr}
    (h : validateSecondsInt m o = .error e) : e.isCompSplit = false := by
  unfold validateSecondsInt at h
  split at h
  · cases h
    rfl
  · exact (Except.noConfusion h)

lemma validateSecondsFloat_notSplit {m : ℚ} {o : String} {e : ParseErr}
    (h : validateSecondsFloat m o = .error e) : e.isCompSplit = false := by
  unfold validateSecondsFloat at h
  split at h
  · cases h
    rfl
  · exact (Except.noConfusion h)

lemma parseDdFormat_notSplit {p o : String} {e : ParseErr}
    (h : parseDdFormat p o = .error e) : e.isCompSplit = false := by
  unfold parseDdFormat at h
  split at h
  · rename_i e' heq
    cases h
    exact parseFloatComponent_notSplit heq
  · exact (Except.noConfusion h)

lemma parseDMMFormat_notSplit {d m o : String} {e : ParseErr}
    (h : parseDMMFormat d m o = .error e) : e.isCompSplit = false := by
  unfold parseDMMFormat at h
  split at h
  · rename_i e' heq
    cases h
    exact parseIntegerComponent_notSplit heq
  · split at h
    · split at h
      · rename_i e' heq
        cases h
        exact parseFloatComponent_notSplit heq
      · split at h
        · rename_i e' heq
          cases h
          exact validateMinutesFloat_notSplit heq
        · exact (Except.noConfusion h)
    · split at h
      · rename_i e' heq
        cases h
        exact parseIntegerComponent_notSplit heq
      · split at h
        · rename_i e' heq
          cases h
          exact validateMinutesInt_notSplit heq
        · exact (Except.noConfusion h)

lemma parseDMMSSFormat_notSplit {d m t o : String} {e : ParseErr}
    (h : parseDMMSSFormat d m t o = .error e) : e.isCompSplit = false := by
  unfold parseDMMSSFormat at h
  simp only [] at h
  split at h
  · rename_i e' heq
    cases h
    exact parseIntegerComponent_notSplit heq
  · split at h
    · rename_i e' heq
      cases h
      exact parseIntegerComponent_notSplit heq
    · split at h
      · rename_i e' heq
        cases h
        exact validateMinutesInt_notSplit heq
      · split at h
        · split at h
          · rename_i e' heq
            cases h
            exact parseFloatComponent_notSplit heq
          · split at h
            · rename_i e' heq
              cases h
              exact validateSecondsFloat_notSplit heq
            · exact (Except.noConfusion h)
        · split at h
          · rename_i e' heq
            cases h
            exact parseIntegerComponent_notSplit heq
          · split at h
            · rename_i e' heq
              cases h
              exact validateSecondsInt_notSplit heq
            · exact (Except.noConfusion h)

/-- No `ParseAngle` error is a `no valid components` or `empty component`
error: those two branches are unreachable. -/
lemma ParseAngle_notSplit {input : String} {e : ParseErr}
    (h : ParseAngle input = .error e) : e.isCompSplit = false := by
  unfold ParseAngle at h
  simp only [] at h
  split at h
  · cases h
    rfl
  · split at h
    · cases h
      rfl
    · rename_i htrim
      split at h
      · cases h
        rfl
      · split at h
        · rename_i hlen
          exfalso
          exact fields_trimSpace_ne_nil htrim (List.length_eq_zero.mp hlen)
        · split at h
          · rename_i i hidx
            exfalso
            obtain ⟨x, hx, hpx⟩ := findIdx?_some_mem hidx
            exact fields_ne_empty hx (of_decide_eq_true hpx)
          · split at h
            · exact parseDdFormat_notSplit h
            · exact parseDMMFormat_notSplit h
            · exact parseDMMSSFormat_notSplit h
            · cases h
              rfl

/-! ## Whitespace-run invariance machinery (for C10) -/

/-- A joining of tokens by whitespace runs: `interleave t0 [(r1,t1),…]`
is `t0 ++ r1 ++ t1 ++ …`. -/
def interleave : String → List (String × String) → String
  | t0, [] => t0
  | t0, (r, t) :: rest => t0 ++ r ++ interleave t rest

/-- A token: nonempty, with no whitespace characters. -/
def isToken (t : String) : Prop :=
  t.data ≠ [] ∧ ∀ c ∈ t.data, isGoSpace c = false

/-- An internal whitespace run: nonempty, made of spaces and tabs only. -/
def isSpaceRun (r : String) : Prop :=
  r.data ≠ [] ∧ ∀ c ∈ r.data, c = ' ' ∨ c = '\t'

lemma spaceRun_isGoSpace {c : Char} (h : c = ' ' ∨ c = '\t') :
    isGoSpace c = true := by
  rcases h with rfl | rfl <;> rfl

lemma head?_append_left {l₁ l₂ : List Char} (h : l₁ ≠ []) :
    (l₁ ++ l₂).head? = l₁.head? := by
  cases l₁ with
  | nil => exact absurd rfl h
  | cons c cs => rfl

lemma mem_of_head?_eq_some {l : List Char} {c : Char}
    (h : l.head? = some c) : c ∈ l := by
  cases l with
  | nil => exact (Option.noConfusion h)
  | cons d ds =>
    rw [List.head?_cons, Option.some.injEq] at h
    subst h
    exact List.mem_cons_self d ds

lemma mem_of_getLast?_eq_some {l : List Char} {c : Char}
    (h : l.getLast? = some c) : c ∈ l := by
  rw [← List.head?_reverse] at h
  rw [← List.mem_reverse]
  exact mem_of_head?_eq_some h

lemma fieldsCore_nil_eq (acc : List Char) :
    fieldsCore [] acc = if acc = [] then [] else [acc.reverse] := by
  conv_lhs => unfold fieldsCore

lemma fieldsCore_cons_eq (c : Char) (cs acc : List Char) :
    fieldsCore (c :: cs) acc =
      if isGoSpace c then
        (if acc = [] then fieldsCore cs [] else acc.reverse :: fieldsCore cs [])
      else fieldsCore cs (c :: acc) := by
  conv_lhs => unfold fieldsCore

/-- Pushing a whitespace-free token into the `fieldsCore` accumulator. -/
lemma fieldsCore_append_token {tok : List Char}
    (htok : ∀ c ∈ tok, isGoSpace c = false) :
    ∀ cs acc, fieldsCore (tok ++ cs) acc = fieldsCore cs (tok.reverse ++ acc) := by
  induction tok with
  | nil =>
    intro cs acc
    simp
  | cons c tok' ih =>
    intro cs acc
    have hc : isGoSpace c = false := htok c (List.mem_cons_self c tok')
    show fieldsCore (c :: (tok' ++ cs)) acc = _
    rw [fieldsCore_cons_eq, if_neg (by rw [hc]; simp)]
    rw [ih (fun d hd => htok d (List.mem_cons_of_mem c hd)) cs (c :: acc)]
    simp [List.append_assoc]

/-- Skipping a whitespace run with an empty accumulator. -/
lemma fieldsCore_append_run_nilAcc {run : List Char}
    (hrun : ∀ c ∈ run, isGoSpace c = true) :
    ∀ cs, fieldsCore (run ++ cs) [] = fieldsCore cs [] := by
  induction run with
  | nil => intro cs; rfl
  | cons c run' ih =>
    intro cs
    show fieldsCore (c :: (run' ++ cs)) [] = _
    rw [fieldsCore_cons_eq, if_pos (hrun c (List.mem_cons_self c run')), if_pos rfl]
    exact ih (fun d hd => hrun d (List.mem_cons_of_mem c hd)) cs

/-- A whitespace run flushes a nonempty accumulator as one field. -/
lemma fieldsCore_append_run {run : List Char} {acc : List Char}
    (hrun : ∀ c ∈ run, isGoSpace c = true) (hne : run ≠ []) (hacc : acc ≠ [])
    (cs : List Char) :
    fieldsCore (run ++ cs) acc = acc.reverse :: fieldsCore cs [] := by
  cases run with
  | nil => exact absurd rfl hne
  | cons c run' =>
    show fieldsCore (c :: (run' ++ cs)) acc = _
    rw [fieldsCore_cons_eq, if_pos (hrun c (List.mem_cons_self c run')), if_neg hacc]
    rw [fieldsCore_append_run_nilAcc (fun d hd => hrun d (List.mem_cons_of_mem c hd)) cs]

/-- The fields of an interleaving are exactly its tokens. -/
lemma fields_interleave : ∀ (t0 : String) (rest : List (String × String)),
    isToken t0 → (∀ p ∈ rest, isSpaceRun p.1 ∧ isToken p.2) →
    fields (interleave t0 rest) = t0 :: rest.map (fun p => p.2) := by
  intro t0 rest
  induction rest generalizing t0 with
  | nil =>
    intro ht _
    show (fieldsCore t0.data []).map (fun l => String.mk l) = [t0]
    rw [show t0.data = t0.data ++ [] from (List.append_nil _).symm,
      fieldsCore_append_token ht.2 [] [], fieldsCore_nil_eq,
      if_neg (by simpa using ht.1)]
    simp
  | cons p rest' ih =>
    intro ht hrest
    obtain ⟨r, t⟩ := p
    have hr : isSpaceRun r := (hrest (r, t) (List.mem_cons_self _ _)).1
    have htt : isToken t := (hrest (r, t) (List.mem_cons_self _ _)).2
    have hdata : (interleave t0 ((r, t) :: rest')).data =
        t0.data ++ (r.data ++ (interleave t rest').data) := by
      show ((t0 ++ r) ++ interleave t rest').data = _
      rw [String.data_append, String.data_append, List.append_assoc]
    show (fieldsCore (interleave t0 ((r, t) :: rest')).data []).map
      (fun l => String.mk l) = _
    rw [hdata, fieldsCore_append_token ht.2,
      fieldsCore_append_run (fun c hc => spaceRun_isGoSpace (hr.2 c hc)) hr.1
        (by simpa using ht.1)]
    have hrec := ih t htt (fun q hq => hrest q (List.mem_cons_of_mem _ hq))
    unfold fields at hrec
    simp only [List.map_cons, List.append_nil, List.reverse_reverse, hrec]

/-- An interleaving is a nonempty string. -/
lemma interleave_data_ne_nil (t0 : String) (rest : List (String × String))
    (h : t0.data ≠ []) : (interleave t0 rest).data ≠ [] := by
  cases rest with
  | nil => exact h
  | cons p rest' =>
    obtain ⟨r, t⟩ := p
    show ((t0 ++ r) ++ interleave t rest').data ≠ []
    rw [String.data_append, String.data_append, List.append_assoc]
    intro hnil
    exact h (List.append_eq_nil.mp hnil).1

/-- The first character of an interleaving is the first character of its
first token. -/
lemma interleave_head? (t0 : String) (rest : List (String × String))
    (h : t0.data ≠ []) :
    (interleave t0 rest).data.head? = t0.data.head? := by
  cases rest with
  | nil => rfl
  | cons p rest' =>
    obtain ⟨r, t⟩ := p
    show ((t0 ++ r) ++ interleave t rest').data.head? = _
    rw [String.data_append, String.data_append, List.append_assoc]
    exact head?_append_left h

/-- The last character of an interleaving is a character of its last
token, hence not whitespace. -/
lemma interleave_getLast?_nonspace : ∀ (t0 : String)
    (rest : List (String × String)), isToken t0 →
    (∀ p ∈ rest, isSpaceRun p.1 ∧ isToken p.2) →
    ∀ c, (interleave t0 rest).data.getLast? = some c → isGoSpace c = false := by
  intro t0 rest
  induction rest generalizing t0 with
  | nil =>
    intro ht _ c hc
    exact ht.2 c (mem_of_getLast?_eq_some hc)
  | cons p rest' ih =>
    intro ht hrest c hc
    obtain ⟨r, t⟩ := p
    have htt : isToken t := (hrest (r, t) (List.mem_cons_self _ _)).2
    have hdata : (interleave t0 ((r, t) :: rest')).data =
        (t0.data ++ r.data) ++ (interleave t rest').data := by
      show ((t0 ++ r) ++ interleave t rest').data = _
      rw [String.data_append, String.data_append]
    rw [hdata, List.getLast?_append_of_ne_nil _
      (interleave_data_ne_nil t rest' htt.1)] at hc
    exact ih t htt (fun q hq => hrest q (List.mem_cons_of_mem _ hq)) c hc

lemma dropWhile_eq_self_of_head {l : List Char}
    (h : ∀ c, l.head? = some c → isGoSpace c = false) :
    l.dropWhile isGoSpace = l := by
  cases l with
  | nil => rfl
  | cons c cs =>
    exact List.dropWhile_cons_of_neg (by rw [h c rfl]; simp)

/-- An interleaving is already trimmed. -/
lemma trimSpace_interleave (t0 : String) (rest : List (String × String))
    (ht : isToken t0) (hrest : ∀ p ∈ rest, isSpaceRun p.1 ∧ isToken p.2) :
    trimSpace (interleave t0 rest) = interleave t0 rest := by
  have h1 : (interleave t0 rest).data.dropWhile isGoSpace =
      (interleave t0 rest).data := by
    apply dropWhile_eq_self_of_head
    intro c hc
    rw [interleave_head? t0 rest ht.1] at hc
    exact ht.2 c (mem_of_head?_eq_some hc)
  have h2 : (interleave t0 rest).data.reverse.dropWhile isGoSpace =
      (interleave t0 rest).data.reverse := by
    apply dropWhile_eq_self_of_head
    intro c hc
    rw [List.head?_reverse] at hc
    exact interleave_getLast?_nonspace t0 rest ht hrest c hc
  show String.mk _ = _
  rw [h1, h2, List.reverse_reverse]

/-- The first invalid character of an interleaving does not depend on the
whitespace runs. -/
lemma find?_interleave (p : Char → Bool)
    (hp : ∀ c, (c = ' ' ∨ c = '\t') → p c = false) :
    ∀ (t0 : String) (rest1 rest2 : List (String × String)),
    (∀ q ∈ rest1, isSpaceRun q.1 ∧ isToken q.2) →
    (∀ q ∈ rest2, isSpaceRun q.1 ∧ isToken q.2) →
    rest1.map (fun q => q.2) = rest2.map (fun q => q.2) →
    (interleave t0 rest1).data.find? p = (interleave t0 rest2).data.find? p := by
  intro t0 rest1
  induction rest1 generalizing t0 with
  | nil =>
    intro rest2 _ _ hmap
    rw [List.map_nil] at hmap
    rw [List.map_eq_nil_iff.mp hmap.symm]
  | cons q1 rest1' ih =>
    intro rest2 h1 h2 hmap
    obtain ⟨r1, t⟩ := q1
    cases rest2 with
    | nil => exact absurd hmap (by simp)
    | cons q2 rest2' =>
      obtain ⟨r2, t2⟩ := q2
      rw [List.map_cons, List.map_cons] at hmap
      have ht2 : t = t2 := (List.cons.injEq _ _ _ _).mp hmap |>.1
      subst ht2
      have hmap' : rest1'.map (fun q => q.2) = rest2'.map (fun q => q.2) :=
        ((List.cons.injEq _ _ _ _).mp hmap).2
      have hdata1 : (interleave t0 ((r1, t) :: rest1')).data =
          (t0.data ++ r1.data) ++ (interleave t rest1').data := by
        show ((t0 ++ r1) ++ interleave t rest1').data = _
        rw [String.data_append, String.data_append]
      have hdata2 : (interleave t0 ((r2, t) :: rest2')).data =
          (t0.data ++ r2.data) ++ (interleave t rest2').data := by
        show ((t0 ++ r2) ++ interleave t rest2').data = _
        rw [String.data_append, String.data_append]
      have hr1 : r1.data.find? p = none := List.find?_eq_none.mpr
        (fun c hc => by
          rw [hp c ((h1 (r1, t) (List.mem_cons_self _ _)).1.2 c hc)]
          simp)
      have hr2 : r2.data.find? p = none := List.find?_eq_none.mpr
        (fun c hc => by
          rw [hp c ((h2 (r2, t) (List.mem_cons_self _ _)).1.2 c hc)]
          simp)
      rw [hdata1, hdata2, List.find?_append, List.find?_append,
        List.find?_append, List.find?_append, hr1, hr2]
      rw [ih t rest2' (fun q hq => h1 q (List.mem_cons_of_mem _ hq))
        (fun q hq => h2 q (List.mem_cons_of_mem _ hq)) hmap']

/-- Lemma: `ParseAngle` on an already-trimmed nonempty input, up to the error
echo: character validation, then dispatch over the fields. -/
lemma resultKind_ParseAngle_canonical {s : String} (hne : s ≠ "")
    (htrim : trimSpace s = s) :
    resultKind (ParseAngle s) =
      (match s.data.find? (fun c => !validParseChar c) with
       | some c => .error (.invalidCharacter c "")
       | none =>
         if (fields s).length = 0 then .error (.noValidComponents "")
         else
           match (fields s).findIdx? (· = "") with
           | some i => .error (.emptyComponent (i + 1) "")
           | none =>
             match fields s with
             | [p0] => resultKind (parseDdFormat p0 "")
             | [p0, p1] => resultKind (parseDMMFormat p0 p1 "")
             | [p0, p1, p2] => resultKind (parseDMMSSFormat p0 p1 p2 "")
             | _ => .error (.tooManyComponents (fields s).length "")) := by
  unfold ParseAngle
  simp only []
  rw [htrim]
  rw [if_neg hne]
  rw [if_neg hne]
  cases hf : s.data.find? (fun c => !validParseChar c) with
  | some c => rfl
  | none =>
    simp only []
    by_cases hlen : (fields s).length = 0
    · rw [if_pos hlen, if_pos hlen]
      rfl
    · rw [if_neg hlen, if_neg hlen]
      cases hidx : (fields s).findIdx? (· = "") with
      | some i => rfl
      | none =>
        simp only []
        cases hs0 : fields s with
        | nil => rfl
        | cons p0 rest0 =>
          cases rest0 with
          | nil =>
            simp only []
            rw [parseDdFormat_withOrig p0 s, resultKind_mapError_withOrig]
          | cons p1 rest1 =>
            cases rest1 with
            | nil =>
              simp only []
              rw [parseDMMFormat_withOrig p0 p1 s, resultKind_mapError_withOrig]
            | cons p2 rest2 =>
              cases rest2 with
              | nil =>
                simp only []
                rw [parseDMMSSFormat_withOrig p0 p1 p2 s,
                  resultKind_mapError_withOrig]
              | cons p3 rest3 => rfl

unseal Rat.add Rat.sub Rat.mul Rat.inv in
/-- C10 counterexample: the claim fails on the code in its "identical
results" part, because errors echo the original input string: the inputs
`"12 60"` and `"12  60"` differ only in the length of their single
internal whitespace run, yet parse to different (error) results. -/
theorem claim_C10_counterexample :
    ParseAngle "12 60" ≠ ParseAngle "12  60" := by decide

/-- C10 (amended): `strings.Fields` splits the trimmed input on runs of
whitespace, so no component is ever empty: no `ParseAngle` outcome is a
`no valid components found` or `component is empty` error (those branches
are unreachable); and two inputs that differ only in the lengths (and
space/tab composition) of their internal whitespace runs parse to the same
outcome up to the original input echoed in error messages: identical
angles on success, identical errors up to the echo on failure.  (The full
error values can differ, since they embed the original input.) -/
theorem claim_C10_fields_whitespace :
    (∀ input e, ParseAngle input = .error e → e.isCompSplit = false) ∧
    (∀ (t0 : String) (rest1 rest2 : List (String × String)), isToken t0 →
      (∀ q ∈ rest1, isSpaceRun q.1 ∧ isToken q.2) →
      (∀ q ∈ rest2, isSpaceRun q.1 ∧ isToken q.2) →
      rest1.map (fun q => q.2) = rest2.map (fun q => q.2) →
      resultKind (ParseAngle (interleave t0 rest1)) =
        resultKind (ParseAngle (interleave t0 rest2))) := by
  refine ⟨fun input e h => ParseAngle_notSplit h, ?_⟩
  intro t0 rest1 rest2 ht h1 h2 hmap
  have hne1 : interleave t0 rest1 ≠ "" := by
    intro hs
    exact interleave_data_ne_nil t0 rest1 ht.1 (by rw [hs])
  have hne2 : interleave t0 rest2 ≠ "" := by
    intro hs
    exact interleave_data_ne_nil t0 rest2 ht.1 (by rw [hs])
  rw [resultKind_ParseAngle_canonical hne1 (trimSpace_interleave t0 rest1 ht h1),
    resultKind_ParseAngle_canonical hne2 (trimSpace_interleave t0 rest2 ht h2)]
  rw [fields_interleave t0 rest1 ht h1, fields_interleave t0 rest2 ht h2, hmap]
  rw [find?_interleave _ (by intro c hc; rcases hc with rfl | rfl <;> rfl)
    t0 rest1 rest2 h1 h2 hmap]

unseal Rat.add Rat.sub Rat.mul Rat.inv in
theorem claim_C10_fields_whitespace_witness :
    resultKind (ParseAngle (interleave "12" [(" ", "60")])) =
      resultKind (ParseAngle (interleave "12" [("  ", "60")])) :=
  claim_C10_fields_whitespace.2 "12" [(" ", "60")] [("  ", "60")]
    ⟨by decide, by decide⟩
    (by intro q hq; rw [List.mem_singleton] at hq; subst hq
        exact ⟨⟨by decide, by decide⟩, by decide, by decide⟩)
    (by intro q hq; rw [List.mem_singleton] at hq; subst hq
        exact ⟨⟨by decide, by decide⟩, by decide, by decide⟩)
    (by decide)

/-! ## Claim C2: negative-zero degree tokens -/

/-- An integer component parsed from a token with no minus sign is
nonnegative. -/
lemma parseIntegerComponent_nonneg {str n o : String} {v : ℤ}
    (h : parseIntegerComponent str n o = .ok v)
    (hm : ∀ c ∈ str.data, c ≠ '-') : 0 ≤ v :=
  goAtoi_nonneg (parseIntegerComponent_ok_atoi h) hm

/-- A float component parsed from a token with no minus sign is
nonnegative. -/
lemma parseFloatComponent_nonneg {str n o : String} {q : ℚ}
    (h : parseFloatComponent str n o = .ok q)
    (hm : ∀ c ∈ str.data, c ≠ '-') : 0 ≤ q :=
  goParseFloat_nonneg (parseFloatComponent_ok_float h) hm

unseal Rat.add Rat.sub Rat.mul Rat.inv in
/-- C2 counterexample: the claim fails on the code.  `parse("-0 20")` — a
two-component input whose degrees token begins with `-` and parses to
integer `0` — returns the positive value `1/3` (only the three-component
parser implements the negative-zero rule), and `parse("-0 -20 10")` — a
three-component such input whose minutes token carries its own sign —
returns the positive value `121/360` (the rule negates, rather than
forces negative, the recomposed value). -/
theorem claim_C2_counterexample :
    ParseAngle "-0 20" = .ok ⟨1/3, .DMM⟩ ∧ ¬((1 : ℚ)/3 < 0) ∧
    ParseAngle "-0 -20 10" = .ok ⟨121/360, .DMMSS⟩ ∧ ¬((121 : ℚ)/360 < 0) :=
  ⟨by decide, by decide, by decide, by decide⟩

unseal Rat.add Rat.sub Rat.mul Rat.inv in
/-- C2 (amended): the negative-zero inference exists only in the
three-component parser, and it negates the recomposed value rather than
forcing the sign: a two-component parse treats a `-0` degrees token
exactly like `0`, while a three-component parse whose degrees token begins
with `-` and parses to `0` and whose minutes and seconds tokens carry no
minus sign returns a nonpositive value; `parse("-0 20 10")` returns
`-(Ddd 0 20 10)`. -/
theorem claim_C2_negative_zero :
    (∀ m o, parseDMMFormat "-0" m o = parseDMMFormat "0" m o) ∧
    (∀ d m s o a, parseDMMSSFormat d m s o = .ok a →
      hasPre d "-" = true → goAtoi d = some 0 →
      (∀ c ∈ m.data, c ≠ '-') → (∀ c ∈ s.data, c ≠ '-') →
      a.alpha ≤ 0) ∧
    (ParseAngle "-0 20 10").map Angle.alpha = .ok (-(Ddd 0 20 10)) := by
  refine ⟨?_, ?_, by decide⟩
  · intro m o
    unfold parseDMMFormat
    rw [show parseIntegerComponent "-0" "degrees" o = .ok 0 from rfl,
      show parseIntegerComponent "0" "degrees" o = .ok 0 from rfl]
  · intro d m s o a h hpre hatoi hm hs
    unfold parseDMMSSFormat at h
    simp only [] at h
    split at h
    · exact (Except.noConfusion h)
    · rename_i dv heqd
      have hdv : dv = 0 := by
        rw [parseIntegerComponent_ok_atoi heqd] at hatoi
        exact ((Option.some.injEq _ _).mp hatoi)
      split at h
      · exact (Except.noConfusion h)
      · rename_i mv heqm
        have hmv : 0 ≤ mv := goAtoi_nonneg (parseIntegerComponent_ok_atoi heqm) hm
        split at h
        · exact (Except.noConfusion h)
        · split at h
          · split at h
            · exact (Except.noConfusion h)
            · rename_i sv heqs
              have hsv : 0 ≤ sv :=
                goParseFloat_nonneg (parseFloatComponent_ok_float heqs) hs
              split at h
              · exact (Except.noConfusion h)
              · cases h
                show (if hasPre d "-" = true ∧ dv = 0 then -(Ddd dv mv sv)
                  else Ddd dv mv sv) ≤ 0
                rw [if_pos ⟨hpre, hdv⟩, hdv]
                have := Ddd_nonneg le_rfl hmv hsv
                linarith
          · split at h
            · exact (Except.noConfusion h)
            · rename_i sv heqs
              have hsv : 0 ≤ sv := goAtoi_nonneg (parseIntegerComponent_ok_atoi heqs) hs
              split at h
              · exact (Except.noConfusion h)
              · cases h
                show (if hasPre d "-" = true ∧ dv = 0 then -(Ddd dv mv (sv : ℚ))
                  else Ddd dv mv (sv : ℚ)) ≤ 0
                rw [if_pos ⟨hpre, hdv⟩, hdv]
                have := Ddd_nonneg le_rfl hmv
                  (by exact_mod_cast hsv : (0:ℚ) ≤ (sv : ℚ))
                linarith

unseal Rat.add Rat.sub Rat.mul Rat.inv in
theorem claim_C2_negative_zero_witness :
    (Angle.mk (-(Ddd 0 20 10)) .DMMSS).alpha ≤ 0 :=
  claim_C2_negative_zero.2.1 "-0" "20" "10" "-0 20 10"
    ⟨-(Ddd 0 20 10), .DMMSS⟩ (by decide) (by decide) (by decide)
    (by decide) (by decide)

/-! ## Claim C7: decimal points in degree tokens -/

/-- A token containing a dot never parses as an integer component. -/
lemma parseIntegerComponent_dot_fails {str n o : String}
    (hdot : containsRune str '.' = true) :
    ∃ e, parseIntegerComponent str n o = .error e := by
  unfold parseIntegerComponent
  split
  · rename_i e _
    exact ⟨e, rfl⟩
  · rw [if_pos hdot]
    exact ⟨_, rfl⟩

/-- A two-component parse whose degrees token contains a dot fails. -/
lemma parseDMMFormat_dot_fails {d m o : String}
    (hdot : containsRune d '.' = true) :
    ∃ e, parseDMMFormat d m o = .error e := by
  obtain ⟨e, he⟩ := parseIntegerComponent_dot_fails (n := "degrees") (o := o) hdot
  unfold parseDMMFormat
  rw [he]
  exact ⟨e, rfl⟩

/-- A three-component parse whose degrees token contains a dot fails. -/
lemma parseDMMSSFormat_dot_fails {d m s o : String}
    (hdot : containsRune d '.' = true) :
    ∃ e, parseDMMSSFormat d m s o = .error e := by
  obtain ⟨e, he⟩ := parseIntegerComponent_dot_fails (n := "degrees") (o := o) hdot
  unfold parseDMMSSFormat
  rw [he]
  exact ⟨e, rfl⟩

unseal Rat.add Rat.sub Rat.mul Rat.inv in
/-- C7: a decimal point is accepted in the sole token of a one-component
input (parsed as `Dd`), but in two- and three-component inputs a dot in
the degrees token is rejected — with the unexpected-decimal-point error
once the token passes sign validation — because degrees are always parsed
as an integer; consequently no successful multi-component parse has a dot
in its first token. -/
theorem claim_C7_decimal_point :
    ParseAngle "12.35" = .ok ⟨1235/100, .Dd⟩ ∧
    (∀ str n o, containsRune str '.' = true →
      validateNumericString str n o = .ok () →
      parseIntegerComponent str n o = .error (.unexpectedDecimalPoint n o)) ∧
    (∀ d m o, containsRune d '.' = true →
      ∃ e, parseDMMFormat d m o = .error e) ∧
    (∀ d m s o, containsRune d '.' = true →
      ∃ e, parseDMMSSFormat d m s o = .error e) ∧
    (∀ input a d rest, ParseAngle input = .ok a →
      fields (trimSpace input) = d :: rest → rest ≠ [] →
      containsRune d '.' = false) := by
  refine ⟨by decide, ?_, fun d m o hdot => parseDMMFormat_dot_fails hdot,
    fun d m s o hdot => parseDMMSSFormat_dot_fails hdot, ?_⟩
  · intro str n o hdot hval
    unfold parseIntegerComponent
    rw [hval]
    rw [if_pos hdot]
  · intro input a d rest h hfields hrest
    rcases ParseAngle_ok_parts h with ⟨q0, hq, hd⟩ | ⟨q0, q1, hq, hd⟩ |
      ⟨q0, q1, q2, hq, hd⟩
    · rw [hfields] at hq
      cases hq
      exact absurd rfl hrest
    · rw [hfields] at hq
      cases hq
      cases hb : containsRune d '.'
      · rfl
      · obtain ⟨e, he⟩ := parseDMMFormat_dot_fails (m := q1) (o := input) hb
        rw [he] at hd
        exact (Except.noConfusion hd)
    · rw [hfields] at hq
      cases hq
      cases hb : containsRune d '.'
      · rfl
      · obtain ⟨e, he⟩ := parseDMMSSFormat_dot_fails (m := q1) (s := q2)
          (o := input) hb
        rw [he] at hd
        exact (Except.noConfusion hd)

unseal Rat.add Rat.sub Rat.mul Rat.inv in
theorem claim_C7_decimal_point_witness :
    parseIntegerComponent "12.35" "degrees" "12.35 20" =
      .error (.unexpectedDecimalPoint "degrees" "12.35 20") :=
  claim_C7_decimal_point.2.1 "12.35" "degrees" "12.35 20" (by decide) (by decide)

unseal Rat.add Rat.sub Rat.mul Rat.inv in
theorem claim_C5_format_inference_witness :
    (Angle.mk (Ddd 12 20 0) .DMM).format =
      (if containsRune "20" '.' then AngleFormat.DMMm else .DMM) :=
  ((claim_C5_format_inference.1 "12 20" ⟨Ddd 12 20 0, .DMM⟩ (by decide)).2.1
    "12" "20" (by decide))

unseal Rat.add Rat.sub Rat.mul Rat.inv in
example : formatAngle (123456/10000) .Dd 2 10 false = "12.35     " := by decide

unseal Rat.add Rat.sub Rat.mul Rat.inv in
example : formatAngle (123456/10000) .Dd (-1) 0 false = "12.345600" := by decide

unseal Rat.add Rat.sub Rat.mul Rat.inv in
example : formatAngle (123456/10000) .Dd 0 0 false = "12" := by decide

unseal Rat.add Rat.sub Rat.mul Rat.inv in
example : formatAngle (-3456/10000) .DMM 2 0 false = "0 -20" := by decide

unseal Rat.add Rat.sub Rat.mul Rat.inv in
example : ParseAngle "12 20" = .ok ⟨Ddd 12 20 0, .DMM⟩ := by decide

unseal Rat.add Rat.sub Rat.mul Rat.inv in
example : ParseAngle "-0 20" = .ok ⟨1/3, .DMM⟩ := by decide

unseal Rat.add Rat.sub Rat.mul Rat.inv in
example : ParseAngle "12 60" =
    .error (.outOfRangeMinutesInt 60 "12 60") := by decide

unseal Rat.add Rat.sub Rat.mul Rat.inv in
example : ParseAngle "12.35" = .ok ⟨1235/100, .Dd⟩ := by decide

unseal Rat.add Rat.sub Rat.mul Rat.inv in
example : ParseAngle "-0 20 10" =
    .ok ⟨-(Ddd 0 20 10), .DMMSS⟩ := by decide

unseal Rat.add Rat.sub Rat.mul Rat.inv in
example : ParseAngle "inf" = .error (.nonFiniteValue "decimal degrees" "inf") := by decide

unseal Rat.add Rat.sub Rat.mul Rat.inv in
example : Ddd (DMS (-815278/100000)).degrees (DMS (-815278/100000)).minutes
    (DMS (-815278/100000)).seconds = -815278/100000 := by decide

end Angles
